import Mathlib

set_option autoImplicit false

namespace FileIndex

/-! A shallow embedding of the django-fileindex ingestion engine.

Part 1: the filesystem model and the placement engine of
`src/fileindex/fileutils.py` (`smartadd`, `smartlink`, `smartcopy`,
`same_contents`, `on_same_filesystem`, plus the pieces of `pathlib`,
`shutil` and `filecmp` they call).

Paths are lists of components from the root; an inode records the data the
engine reads: owning device, file bytes, and modification time. -/

/-- A filesystem path, as its list of components from the root. -/
abbrev FPath := List String

/-- One inode: device, content bytes, and mtime (the fields `filecmp.cmp`
reads for its shallow stat signature, plus the bytes). -/
structure Inode where
  dev : Nat
  bytes : List Nat
  mtime : Int
deriving DecidableEq

/-- Filesystem state: regular-file directory entries (path to inode number),
existing directories, the inode table, the device that holds each directory
position (static mount layout), and a counter supplying fresh inode numbers
for `shutil.copy2`. -/
structure FS where
  files : FPath → Option Nat
  dirs : FPath → Bool
  inodes : Nat → Inode
  dirDev : FPath → Nat
  nextIno : Nat

/-- The Python exceptions the placement engine can surface. -/
inductive PyErr where
  | fileNotFound
  | assertionFailed
  | cannotHardLink
  | fileExists
  | crossDeviceLink
deriving DecidableEq

/-- Whether a path is a regular file. -/
def FS.isFile (fs : FS) (p : FPath) : Bool :=
  (fs.files p).isSome

/-- `Path.exists()`: true for a regular file or a directory. -/
def FS.pathExists (fs : FS) (p : FPath) : Bool :=
  fs.isFile p || fs.dirs p

/-- `stat().st_dev` of a path: a file reports its inode's device, a
directory the device of its position in the mount layout. -/
def FS.devOf (fs : FS) (p : FPath) : Option Nat :=
  match fs.files p with
  | some i => some (fs.inodes i).dev
  | none => if fs.dirs p then some (fs.dirDev p) else none

/-- `src_path.samefile(dst_path)`: stat both sides and compare identity;
raises `FileNotFoundError` when either side is absent.  Regular files
compare by inode number (which determines the device in this model); when a
directory is involved the two stats agree exactly when the paths coincide. -/
def samefile (fs : FS) (p q : FPath) : Except PyErr Bool :=
  match fs.files p, fs.files q with
  | some i, some j => .ok (i == j)
  | _, _ =>
    if fs.pathExists p && fs.pathExists q then .ok (p == q)
    else .error .fileNotFound

/-- The `while not dst_parent.exists(): dst_parent = dst_parent.parent` walk
of `on_same_filesystem`.  The root path is its own parent; the loop is only
reached on filesystems whose root exists, which the theorems assume. -/
def findExistingAncestor (fs : FS) : FPath → FPath
  | [] => []
  | p :: ps =>
    if fs.pathExists (p :: ps) then p :: ps
    else findExistingAncestor fs (p :: ps).dropLast
termination_by p => p.length
decreasing_by
  simp [List.dropLast_cons_of_ne_nil, List.length_dropLast]

/-- `on_same_filesystem(src, dst)` from fileutils.py: compare `src`'s device
with the device of `dst` itself when it exists, and otherwise with the
device of the nearest existing ancestor of `dst`'s parent. -/
def on_same_filesystem (fs : FS) (src dst : FPath) : Except PyErr Bool :=
  match fs.devOf src with
  | none => .error .fileNotFound
  | some sdev =>
    if fs.pathExists dst then
      match fs.devOf dst with
      | none => .error .fileNotFound
      | some ddev => .ok (sdev == ddev)
    else
      match fs.devOf (findExistingAncestor fs dst.dropLast) with
      | none => .error .fileNotFound
      | some ddev => .ok (sdev == ddev)

/-- `filecmp.cmp(file1, file2)` with its default `shallow=True`: equal
(size, mtime) stat signatures short-circuit to `True` without reading any
bytes; otherwise unequal sizes give `False` and equal sizes fall through to
a byte comparison.  A non-regular existing path compares `False`; a missing
path raises. -/
def filecmp_cmp (fs : FS) (p q : FPath) : Except PyErr Bool :=
  if !(fs.pathExists p) || !(fs.pathExists q) then .error .fileNotFound
  else
    match fs.files p, fs.files q with
    | some i, some j =>
      let a := fs.inodes i
      let b := fs.inodes j
      if a.bytes.length == b.bytes.length && a.mtime == b.mtime then .ok true
      else if a.bytes.length != b.bytes.length then .ok false
      else .ok (a.bytes == b.bytes)
    | _, _ => .ok false

/-- `same_contents(file1, file2)`: truthy exactly when `filecmp.cmp`
accepts (the Python function returns `True` or falls through to `None`). -/
def same_contents (fs : FS) (p q : FPath) : Except PyErr Bool :=
  filecmp_cmp fs p q

/-- Add or replace the directory entry for `p`, pointing it at inode `i`. -/
def FS.setFile (fs : FS) (p : FPath) (i : Nat) : FS :=
  { fs with files := fun q => if q = p then some i else fs.files q }

/-- `Path.unlink()`: drop the directory entry for `p`. -/
def FS.unlink (fs : FS) (p : FPath) : FS :=
  { fs with files := fun q => if q = p then none else fs.files q }

/-- `dst_path.parent.mkdir(parents=True, exist_ok=True)`: create `dst`'s
parent and every missing ancestor of it; raises `FileExistsError` when some
ancestor position is occupied by a regular file. -/
def FS.mkdirParentsOf (fs : FS) (dst : FPath) : Except PyErr FS :=
  if (List.range (dst.dropLast.length + 1)).any
      (fun k => fs.isFile (dst.dropLast.take k)) then
    .error .fileExists
  else
    .ok { fs with dirs := fun q => fs.dirs q || q.isPrefixOf dst.dropLast }

/-- `linkPath.hardlink_to(target)` (`os.link`): make `linkPath` a new name
for `target`'s inode.  Fails when the target is not a regular file, the
link path already exists, its parent directory is missing, or the link
position lives on a different device than the target inode (`EXDEV`). -/
def hardlink_to (fs : FS) (linkPath target : FPath) : Except PyErr FS :=
  match fs.files target with
  | none => .error .fileNotFound
  | some i =>
    if fs.pathExists linkPath then .error .fileExists
    else if !(fs.dirs linkPath.dropLast) then .error .fileNotFound
    else if fs.dirDev linkPath.dropLast != (fs.inodes i).dev then .error .crossDeviceLink
    else .ok (fs.setFile linkPath i)

/-- `shutil.copy2(src, dst)`: copy bytes into a fresh inode on `dst`'s
device, preserving the modification time. -/
def copy2 (fs : FS) (src dst : FPath) : Except PyErr FS :=
  match fs.files src with
  | none => .error .fileNotFound
  | some i =>
    if !(fs.dirs dst.dropLast) then .error .fileNotFound
    else
      .ok { fs with
        files := fun q => if q = dst then some fs.nextIno else fs.files q,
        inodes := fun k =>
          if k = fs.nextIno then
            { dev := fs.dirDev dst.dropLast,
              bytes := (fs.inodes i).bytes, mtime := (fs.inodes i).mtime }
          else fs.inodes k,
        nextIno := fs.nextIno + 1 }

/-- `smartlink(src, dst)` from fileutils.py, as a state-passing function:
the result (the Python function returns `None` on success) together with
the filesystem it leaves behind, including on error. -/
def smartlink (fs : FS) (src dst : FPath) : Except PyErr Unit × FS :=
  if !(fs.pathExists src) then (.error .assertionFailed, fs)
  else if fs.pathExists dst then
    match same_contents fs src dst with
    | .error e => (.error e, fs)
    | .ok c =>
      if !c then (.error .assertionFailed, fs)
      else
        match hardlink_to (fs.unlink src) src dst with
        | .error e => (.error e, fs.unlink src)
        | .ok fs2 => (.ok (), fs2)
  else
    match fs.mkdirParentsOf dst with
    | .error e => (.error e, fs)
    | .ok fs1 =>
      match hardlink_to fs1 dst src with
      | .error e => (.error e, fs1)
      | .ok fs2 => (.ok (), fs2)

/-- `smartcopy(src, dst)` from fileutils.py, state-passing. -/
def smartcopy (fs : FS) (src dst : FPath) : Except PyErr Bool × FS :=
  if !(fs.pathExists src) then (.error .assertionFailed, fs)
  else if fs.pathExists dst then
    match same_contents fs src dst with
    | .error e => (.error e, fs)
    | .ok c =>
      if !c then (.error .assertionFailed, fs) else (.ok false, fs)
  else
    match fs.mkdirParentsOf dst with
    | .error e => (.error e, fs)
    | .ok fs1 =>
      match copy2 fs1 src dst with
      | .error e => (.error e, fs1)
      | .ok fs2 => (.ok true, fs2)

/-- `smartadd(src, dst, only_hard_link=False)` from fileutils.py.  The
Python return value is `True` from the same-underlying-file branch, the
`None` returned by `smartlink`, or the `bool` returned by `smartcopy`;
it is modelled as `Option Bool` (`some true` / `none` / `some b`). -/
def smartadd (fs : FS) (src dst : FPath) (only_hard_link : Bool) :
    Except PyErr (Option Bool) × FS :=
  match (if fs.pathExists dst then samefile fs src dst else .ok false :
      Except PyErr Bool) with
  | .error e => (.error e, fs)
  | .ok true => (.ok (some true), fs)
  | .ok false =>
    match on_same_filesystem fs src dst with
    | .error e => (.error e, fs)
    | .ok true =>
      match smartlink fs src dst with
      | (.error e, fs1) => (.error e, fs1)
      | (.ok _, fs1) => (.ok none, fs1)
    | .ok false =>
      if only_hard_link then (.error .cannotHardLink, fs)
      else
        match smartcopy fs src dst with
        | (.error e, fs1) => (.error e, fs1)
        | (.ok b, fs1) => (.ok (some b), fs1)

/-! Part 2: the digest engine (`read_in_chunks`, `hash_file` in
fileutils.py).  The two hashlib objects and the base-32 text encoding are
abstracted: an accumulating hash is a byte-absorbing step function with an
initial state (`sha.update(piece)` absorbs the chunk's bytes in order), and
the final state is printed by an arbitrary encoder. -/

/-- `read_in_chunks(file_object, chunk_size=1024)`: the list of chunks a
sequence of reads yields.  A zero chunk size mirrors Python (`read(0)`
returns an empty bytes object, ending the generator at once). -/
def read_in_chunks (chunkSize : Nat) (data : List Nat) : List (List Nat) :=
  if data = [] then []
  else if chunkSize = 0 then []
  else data.take chunkSize :: read_in_chunks chunkSize (data.drop chunkSize)
termination_by data.length
decreasing_by
  have hpos : 0 < data.length := List.length_pos.mpr (by assumption)
  simp
  omega

/-- The pair of digest texts `hash_file` returns. -/
structure Digests (τ : Type) where
  sha1 : τ
  sha512 : τ
deriving DecidableEq

/-- `hash_file(filepath)`: stream the file in 1 KiB chunks, feeding every
chunk into both accumulating hash functions, then encode each final
state (`base64.b32encode(. .digest()).rstrip` is folded into the abstract
encoders `enc1`, `enc512`). -/
def hash_file {σ₁ σ₂ τ : Type} (absorb1 : σ₁ → Nat → σ₁) (init1 : σ₁)
    (enc1 : σ₁ → τ) (absorb512 : σ₂ → Nat → σ₂) (init512 : σ₂)
    (enc512 : σ₂ → τ) (data : List Nat) : Digests τ :=
  { sha1 := enc1 ((read_in_chunks 1024 data).foldl (fun st piece => piece.foldl absorb1 st) init1),
    sha512 := enc512 ((read_in_chunks 1024 data).foldl (fun st piece => piece.foldl absorb512 st) init512) }

/-! Part 3: CPython call binding, for the `analyze_file` /
`get_or_create_with_filepath_nfo` interface.  `fileutils.analyze_file` and
`fileutils.hash_file` declare only positional-or-keyword parameters and no
`*args`/`**kwargs`, so a call binds exactly when every keyword names a
parameter, no parameter is filled twice, positionals fit, and every
parameter without a default gets a value. -/

/-- A Python function signature: parameter names in order, and the subset
that carries a default value. -/
structure PyFunctionSig where
  params : List String
  defaults : List String

/-- CPython's binding check for `f(*positional, **keyword)` against a
signature of plain positional-or-keyword parameters: `false` means the call
raises `TypeError` before the body runs. -/
def pythonCallOk (sig : PyFunctionSig) (nPositional : Nat) (kwargs : List String) : Bool :=
  decide (nPositional ≤ sig.params.length) &&
  kwargs.all (fun k => sig.params.contains k) &&
  (sig.params.take nPositional).all (fun p => !(kwargs.contains p)) &&
  (sig.params.drop nPositional).all (fun p => kwargs.contains p || sig.defaults.contains p)

/-- `def analyze_file(filepath):` — fileutils.py line 22. -/
def analyze_file_sig : PyFunctionSig :=
  { params := ["filepath"], defaults := [] }

/-- `def hash_file(filepath):` — fileutils.py line 30. -/
def hash_file_sig : PyFunctionSig :=
  { params := ["filepath"], defaults := [] }

/-- The keyword arguments `IndexedFileManager.get_or_create_with_filepath_nfo`
passes to `analyze_file` beside the positional `filepath` — models.py line
140: `fileutils.analyze_file(filepath, hash_progress_callback=hash_progress_callback)`. -/
def ingest_analyze_call_kwargs : List String :=
  ["hash_progress_callback"]

/-! Part 4: the animated-container duration parsers
(`src/fileindex/services/animated_parsers.py`).  A file is a byte list; an
open binary file is a byte list with a cursor.  `read` returns the bytes
available and advances by as many as it got; `seek(n, 1)` moves the cursor
forward unconditionally (Python allows seeking past end-of-file, after
which reads return nothing). -/

/-- An open binary file: contents plus cursor. -/
structure ByteStream where
  data : List Nat
  pos : Nat
deriving DecidableEq

/-- `f.read(n)`: the bytes obtained and the stream afterwards. -/
def bsRead (s : ByteStream) (n : Nat) : List Nat × ByteStream :=
  let t := (s.data.drop s.pos).take n
  (t, { s with pos := s.pos + t.length })

/-- `f.seek(n, 1)`: advance the cursor by `n`. -/
def bsSeek (s : ByteStream) (n : Nat) : ByteStream :=
  { s with pos := s.pos + n }

/-- Big-endian value of a byte list (`struct.unpack` with format `>I` on
four bytes, `>Q` on eight; the callers check the length first). -/
def beBytes (l : List Nat) : Nat :=
  l.foldl (fun acc b => acc * 256 + b) 0

/-- Little-endian value of a byte list (`struct.unpack` with format `<I`
on four bytes; three bytes padded with a zero give the same value). -/
def leBytes (l : List Nat) : Nat :=
  l.foldr (fun b acc => b + 256 * acc) 0

/-- The four bytes of the tag `mvhd`. -/
def mvhdTag : List Nat := [109, 118, 104, 100]

/-- `AVIF_SEARCH_BUFFER_SIZE` — 8 KiB search windows. -/
def AVIF_SEARCH_BUFFER_SIZE : Nat := 8192

/-- `bytes.find(sub)` from index `i` on: the index of the first occurrence
of `pat`, or `-1`. -/
def strFindAux (pat : List Nat) : List Nat → Nat → Int
  | [], i => if pat.isPrefixOf ([] : List Nat) then (i : Int) else -1
  | b :: t, i => if pat.isPrefixOf (b :: t) then (i : Int) else strFindAux pat t (i + 1)

/-- `haystack.find(pat)`. -/
def strFind (hay pat : List Nat) : Int :=
  strFindAux pat hay 0

/-- The loop of `_find_mvhd_box_streaming`: read 8 KiB windows, search the
carried tail-bytes plus the fresh window, and on a hit return
`position + mvhd_offset`, where `position` counts whole chunks consumed so
far (the source keeps the last 8 bytes of each window in `buffer` but does
not subtract them from `position`). -/
def find_mvhd_loop (rest buffer : List Nat) (position : Nat) : Int :=
  if h : rest.take AVIF_SEARCH_BUFFER_SIZE = [] then -1
  else
    let searchData := buffer ++ rest.take AVIF_SEARCH_BUFFER_SIZE
    let off := strFind searchData mvhdTag
    if off != -1 then (position : Int) + off
    else
      find_mvhd_loop (rest.drop AVIF_SEARCH_BUFFER_SIZE)
        (if 8 ≤ searchData.length then searchData.drop (searchData.length - 8)
         else searchData)
        (position + (rest.take AVIF_SEARCH_BUFFER_SIZE).length)
termination_by rest.length
decreasing_by
  have hrest : rest ≠ [] := by
    intro hr
    rw [hr] at h
    simp at h
  have hlen : 0 < rest.length := List.length_pos.mpr hrest
  simp [AVIF_SEARCH_BUFFER_SIZE]
  omega

/-- `_find_mvhd_box_streaming(f)`. -/
def find_mvhd_box_streaming (data : List Nat) : Int :=
  find_mvhd_loop data [] 0

/-- The tail of `_parse_avif_duration_streaming` after timescale and
duration have been read: reject a zero timescale, compute
`int(duration * 1000 / timescale)`, and return it only when positive.
(The Python float division then truncation agrees with `Nat` division on
these non-negative values up to float rounding, which cannot change the
sign tests.) -/
def avifFinish (timescale duration : Nat) : Option Nat :=
  if timescale == 0 then none
  else
    let durationMs := duration * 1000 / timescale
    if durationMs > 0 then some durationMs else none

/-- `_parse_avif_duration_streaming(f, file_path)`: locate `mvhd`, read the
8-byte box header at the returned offset, dispatch on the version byte,
skip the timestamps, and read timescale and duration. -/
def parse_avif_duration_streaming (data : List Nat) : Option Nat :=
  let mvhdPos := find_mvhd_box_streaming data
  if mvhdPos == -1 then none
  else
    let pos := mvhdPos.toNat
    let mvhdHeader := (data.drop pos).take 8
    if mvhdHeader.length < 8 then none
    else
      let version := mvhdHeader.getD 4 0
      if version == 0 then
        let td := (data.drop (pos + 8 + 8)).take 8
        if td.length < 8 then none
        else avifFinish (beBytes (td.take 4)) (beBytes (td.drop 4))
      else if version == 1 then
        let td := (data.drop (pos + 8 + 16)).take 12
        if td.length < 12 then none
        else avifFinish (beBytes (td.take 4)) (beBytes (td.drop 4))
      else none

/-- `parse_avif_duration(file_path)`; the surrounding `try` only converts
I/O failures, which the byte-list model does not have. -/
def parse_avif_duration (data : List Nat) : Option Nat :=
  parse_avif_duration_streaming data

/-- `RIFF` signature bytes. -/
def RIFF_SIGNATURE : List Nat := [82, 73, 70, 70]

/-- `WEBP` signature bytes. -/
def WEBP_SIGNATURE : List Nat := [87, 69, 66, 80]

/-- `ANIM` chunk fourcc bytes. -/
def ANIM_FOURCC : List Nat := [65, 78, 73, 77]

/-- `ANMF` chunk fourcc bytes. -/
def ANMF_FOURCC : List Nat := [65, 78, 77, 70]

/-- `WEBP_CHUNK_HEADER_SIZE`. -/
def WEBP_CHUNK_HEADER_SIZE : Nat := 8

/-- `ANMF_MIN_DATA_SIZE`. -/
def ANMF_MIN_DATA_SIZE : Nat := 16

/-- `_validate_webp_headers(f, file_path)`: seek to the start, check
`RIFF`, skip the 4-byte overall size, check `WEBP`. -/
def validate_webp_headers (s0 : ByteStream) : Bool × ByteStream :=
  let s := { s0 with pos := 0 }
  let r1 := bsRead s 4
  if r1.1 != RIFF_SIGNATURE then (false, r1.2)
  else
    let s2 := bsSeek r1.2 4
    let r2 := bsRead s2 4
    if r2.1 != WEBP_SIGNATURE then (false, r2.2)
    else (true, r2.2)

/-- `_parse_anmf_chunk_duration(f, chunk_size, file_path)`: read
`min(chunk_size, 16)` bytes; with at least 15 of them, the 24-bit
little-endian duration sits at payload offsets 12-14 (padded with a zero
byte for the 32-bit unpack, which cannot fail); then seek past the rest of
the chunk.  Both outcomes skip whatever of the chunk remains. -/
def parse_anmf_chunk_duration (s : ByteStream) (chunkSize : Nat) :
    Option Nat × ByteStream :=
  let r := bsRead s (min chunkSize ANMF_MIN_DATA_SIZE)
  let remaining := chunkSize - r.1.length
  let s2 := if remaining > 0 then bsSeek r.2 remaining else r.2
  if 15 ≤ r.1.length then
    (some (leBytes ((r.1.drop 12).take 3 ++ [0])), s2)
  else
    (none, s2)

/-- Align to an even boundary after a chunk: `if chunk_size % 2 == 1:
f.seek(1, 1)`. -/
def padAlign (s : ByteStream) (chunkSize : Nat) : ByteStream :=
  if chunkSize % 2 == 1 then bsSeek s 1 else s

/-- The chunk loop of `_parse_webp_duration_streaming`: read an 8-byte
chunk header until it comes up short, dispatch on the fourcc (`ANIM` is
skipped but noted, `ANMF` contributes a frame and its duration, everything
else is skipped), skip the pad byte of odd-sized chunks, and at the end
return the accumulated total only when more than one frame was seen and the
total is positive.  The source's `has_anim_chunk` flag feeds only a comment
block whose body is `pass`; it is carried here all the same. -/
def webp_chunk_loop (s : ByteStream) (totalDuration frameCount : Nat)
    (hasAnim : Bool) : Option Nat :=
  match hr : bsRead s WEBP_CHUNK_HEADER_SIZE with
  | (hdr, s1) =>
    if hlt : hdr.length < WEBP_CHUNK_HEADER_SIZE then
      if frameCount > 1 && totalDuration > 0 then some totalDuration else none
    else
      if hdr.take 4 == ANIM_FOURCC then
        webp_chunk_loop (padAlign (bsSeek s1 (leBytes (hdr.drop 4))) (leBytes (hdr.drop 4)))
          totalDuration frameCount true
      else if hdr.take 4 == ANMF_FOURCC then
        match hpr : parse_anmf_chunk_duration s1 (leBytes (hdr.drop 4)) with
        | (some d, s2) =>
          webp_chunk_loop (padAlign s2 (leBytes (hdr.drop 4)))
            (totalDuration + d) (frameCount + 1) hasAnim
        | (none, s2) =>
          webp_chunk_loop (padAlign (bsSeek s2 (leBytes (hdr.drop 4))) (leBytes (hdr.drop 4)))
            totalDuration frameCount hasAnim
      else
        webp_chunk_loop (padAlign (bsSeek s1 (leBytes (hdr.drop 4))) (leBytes (hdr.drop 4)))
          totalDuration frameCount hasAnim
termination_by s.data.length - s.pos
decreasing_by
  all_goals simp only [bsRead, Prod.mk.injEq] at hr
  all_goals obtain ⟨hd1, hs1⟩ := hr
  all_goals subst hd1
  all_goals subst hs1
  all_goals try simp only [parse_anmf_chunk_duration, bsRead] at hpr
  all_goals try split_ifs at hpr
  all_goals try simp at hpr
  all_goals try obtain ⟨-, hs2⟩ := hpr
  all_goals try subst hs2
  all_goals simp only [padAlign, bsSeek]
  all_goals
    split_ifs <;>
      simp only [List.length_take, List.length_drop, WEBP_CHUNK_HEADER_SIZE,
        ANMF_MIN_DATA_SIZE] at hlt ⊢ <;>
      omega

/-- `_parse_webp_duration_streaming(f, file_path)`. -/
def parse_webp_duration_streaming (data : List Nat) : Option Nat :=
  let v := validate_webp_headers { data := data, pos := 0 }
  if !v.1 then none else webp_chunk_loop v.2 0 0 false

/-- `parse_webp_duration(file_path)`; the surrounding `try` only converts
I/O failures, which the byte-list model does not have. -/
def parse_webp_duration (data : List Nat) : Option Nat :=
  parse_webp_duration_streaming data

/-! Specification-side view of a RIFF/WebP body as a list of chunks, used
to state what the streaming parser computes on well-formed input. -/

/-- A RIFF chunk as the WebP scanner distinguishes them. -/
inductive WebpChunk where
  | anim (payload : List Nat)
  | anmf (payload : List Nat)
  | other (fourcc : List Nat) (payload : List Nat)
deriving DecidableEq

/-- The fourcc bytes a chunk is serialized under. -/
def WebpChunk.fourcc : WebpChunk → List Nat
  | .anim _ => ANIM_FOURCC
  | .anmf _ => ANMF_FOURCC
  | .other f _ => f

/-- A chunk's payload bytes. -/
def WebpChunk.payload : WebpChunk → List Nat
  | .anim p => p
  | .anmf p => p
  | .other _ p => p

/-- The four little-endian size bytes of a chunk header. -/
def le32Bytes (n : Nat) : List Nat :=
  [n % 256, n / 256 % 256, n / 65536 % 256, n / 16777216 % 256]

/-- On-disk form of one chunk: fourcc, little-endian size, payload, and a
pad byte when the payload length is odd. -/
def serializeChunk (c : WebpChunk) : List Nat :=
  c.fourcc ++ le32Bytes c.payload.length ++ c.payload ++
    (if c.payload.length % 2 == 1 then [0] else [])

/-- On-disk form of a whole WebP file: `RIFF`, four overall-size bytes,
`WEBP`, then the chunks. -/
def serializeWebp (sizeBytes : List Nat) (cs : List WebpChunk) : List Nat :=
  RIFF_SIGNATURE ++ sizeBytes ++ WEBP_SIGNATURE ++ (cs.map serializeChunk).flatten

/-- The 24-bit little-endian frame duration at payload offsets 12-14,
zero-extended to 32 bits. -/
def anmfPayloadDuration (payload : List Nat) : Nat :=
  leBytes ((payload.drop 12).take 3 ++ [0])

/-- Sum of the frame durations of a chunk list's `ANMF` chunks. -/
def sumAnmfDurations : List WebpChunk → Nat
  | [] => 0
  | .anmf p :: cs => anmfPayloadDuration p + sumAnmfDurations cs
  | _ :: cs => sumAnmfDurations cs

/-- Number of `ANMF` chunks in a chunk list. -/
def countAnmf : List WebpChunk → Nat
  | [] => 0
  | .anmf _ :: cs => 1 + countAnmf cs
  | _ :: cs => countAnmf cs

/-- The duration one chunk contributes to the scanner's running total. -/
def chunkDur : WebpChunk → Nat
  | .anmf p => anmfPayloadDuration p
  | _ => 0

/-- The frames one chunk contributes to the scanner's frame count. -/
def chunkFrames : WebpChunk → Nat
  | .anmf _ => 1
  | _ => 0

/-- How one chunk updates the scanner's `has_anim_chunk` flag. -/
def chunkHa : WebpChunk → Bool → Bool
  | .anim _, _ => true
  | _, ha => ha

/-- A chunk the scanner can walk: `ANMF` payloads carry at least the 15
bytes the duration field needs, sizes fit the 32-bit header field, and an
`other` chunk has a proper four-byte fourcc distinct from `ANIM`/`ANMF`. -/
def WellFormedChunk : WebpChunk → Prop
  | .anim p => p.length < 2 ^ 32
  | .anmf p => 15 ≤ p.length ∧ p.length < 2 ^ 32
  | .other f p =>
    f.length = 4 ∧ f ≠ ANIM_FOURCC ∧ f ≠ ANMF_FOURCC ∧ p.length < 2 ^ 32

instance (c : WebpChunk) : Decidable (WellFormedChunk c) := by
  cases c <;> simp [WellFormedChunk] <;> infer_instance

/-! Part 5: the metadata/corruption classifier
(`src/fileindex/services/metadata.py`, `image_metadata.py`,
`media_metadata.py`).  The external libraries are abstracted as data: a
`MediaEnv` records what Pillow, the thumbhash encoder, the animation
parsers, ffprobe, and MediaInfo would report for the file at hand, with
`none`/`Option` standing for a raised-and-caught failure or a falsy result.
`_extract_mediainfo_metadata` catches exactly the `ImportError`/`ValueError`
that `extract_filtered_mediainfo_metadata` declares and raises, so it is
modelled as a plain presence flag. -/

/-- What `Image.open` exposes. -/
structure PillowImage where
  width : Int
  height : Int
deriving DecidableEq

/-- External facts for `extract_image_metadata`: the opened image (`none`
models `Image.open` raising), the result of `_generate_thumbhash` (which
catches internally and returns `None` on failure), and the result of
`_extract_animated_duration` (likewise). -/
structure ImageEnv where
  opened : Option PillowImage
  thumbhash : Option (List Nat)
  animDuration : Option Int
deriving DecidableEq

/-- The nested `image` dict an image result carries. -/
structure ImageInfoM where
  width : Int
  height : Int
  thumbhash : List Nat
  animated : Bool
deriving DecidableEq

/-- The `video` stream dict `_extract_video_metadata_from_ffprobe`
produces: each field is present with a value or absent (`dict.get` gives
`None`). -/
structure VideoStreamM where
  width : Option Int
  height : Option Int
  frame_rate : Option ℚ
deriving DecidableEq

/-- The dict `_extract_video_metadata_from_ffprobe` returns: an optional
`video` stream, an optional `duration` in milliseconds, and whether an
`audio` entry is present (`ffprobe` is always set by the helper). -/
structure VideoProbeM where
  video : Option VideoStreamM
  duration : Option ℚ
  audio : Bool
deriving DecidableEq

/-- External facts for `extract_video_metadata`: `none` covers both
`run_ffprobe` raising (caught by the outer handler before any field of
`metadata` is set) and a falsy ffprobe result; `mediainfo` says whether
`_extract_mediainfo_metadata` returned data. -/
structure VideoEnv where
  ffprobe : Option VideoProbeM
  mediainfo : Bool
deriving DecidableEq

/-- The dict `_extract_audio_metadata_from_ffprobe` returns. -/
structure AudioProbeM where
  duration : Option ℚ
  audio : Bool
deriving DecidableEq

/-- External facts for `extract_audio_metadata`. -/
structure AudioEnv where
  ffprobe : Option AudioProbeM
  mediainfo : Bool
deriving DecidableEq

/-- All external facts `extract_metadata` can consult for one file. -/
structure MediaEnv where
  image : ImageEnv
  video : VideoEnv
  audio : AudioEnv
deriving DecidableEq

/-- The metadata dict an extraction returns: the keys the extractors can
set, each marked present-with-value or absent (`audio`, `ffprobe` and
`mediainfo` carry payloads the claims never inspect, so only their presence
is modelled). -/
structure MetaDict where
  image : Option ImageInfoM
  video : Option VideoStreamM
  duration : Option ℚ
  audio : Bool
  ffprobe : Bool
  mediainfo : Bool
deriving DecidableEq

/-- The empty metadata dict `{}`. -/
def MetaDict.empty : MetaDict :=
  { image := none, video := none, duration := none,
    audio := false, ffprobe := false, mediainfo := false }

/-- `ANIMATED_IMAGE_FORMATS`. -/
def ANIMATED_IMAGE_FORMATS : List String :=
  ["image/gif", "image/webp", "image/avif"]

/-- `extract_image_metadata(file_path, mime_type)`.  Dimensions are checked
first (`img.width > 0 and img.height > 0`), then the thumbhash, then an
animation duration is taken only when truthy and positive
(`if duration_ms and duration_ms > 0`).  Every corrupt return hands back
the still-empty `metadata` dict; the trailing re-check of the dimensions
can never fire because the `image` key was just set.  The final
`except Exception` turns an `Image.open` failure into `({}, True)`. -/
def extract_image_metadata (env : ImageEnv) (mime_type : String) :
    MetaDict × Bool :=
  match env.opened with
  | none => (MetaDict.empty, true)
  | some img =>
    if img.width > 0 && img.height > 0 then
      match env.thumbhash with
      | none => (MetaDict.empty, true)
      | some th =>
        let animated :=
          if ANIMATED_IMAGE_FORMATS.contains mime_type then
            (match env.animDuration with
             | some d => d != 0 && decide (d > 0)
             | none => false)
          else false
        let duration : Option ℚ :=
          if animated then (env.animDuration.map (fun d => (d : ℚ))) else none
        let info : ImageInfoM :=
          { width := img.width, height := img.height,
            thumbhash := th, animated := animated }
        ({ image := some info, video := none, duration := duration,
           audio := false, ffprobe := false, mediainfo := false }, false)
    else (MetaDict.empty, true)

/-- The `video.get("width") and video.get("height") and
video.get("width") > 0 and video.get("height") > 0` test (Python
truthiness: a present zero is falsy, a present negative is truthy but fails
the comparison). -/
def videoDimsOk (v : VideoStreamM) : Bool :=
  match v.width, v.height with
  | some x, some y => x != 0 && y != 0 && decide (x > 0) && decide (y > 0)
  | _, _ => false

/-- The `not video.get("frame_rate") or video.get("frame_rate") <= 0`
rejection, as the passing condition. -/
def videoFrameRateOk (v : VideoStreamM) : Bool :=
  match v.frame_rate with
  | some q => q != 0 && decide (q > 0)
  | none => false

/-- The `"duration" not in video_metadata or video_metadata["duration"] <= 0`
rejection, as the passing condition. -/
def probeDurationOk (d : Option ℚ) : Bool :=
  match d with
  | some q => decide (q > 0)
  | none => false

/-- `extract_video_metadata(file_path)`: every required-field rejection
returns `({}, True)` explicitly; on success the validated fields plus the
optional ones are copied. -/
def extract_video_metadata (env : VideoEnv) : MetaDict × Bool :=
  match env.ffprobe with
  | none => (MetaDict.empty, true)
  | some probe =>
    match probe.video with
    | none => (MetaDict.empty, true)
    | some v =>
      if !(videoDimsOk v) then (MetaDict.empty, true)
      else if !(videoFrameRateOk v) then (MetaDict.empty, true)
      else if !(probeDurationOk probe.duration) then (MetaDict.empty, true)
      else
        ({ image := none, video := some v, duration := probe.duration,
           audio := probe.audio, ffprobe := true,
           mediainfo := env.mediainfo }, false)

/-- `extract_audio_metadata(file_path)`. -/
def extract_audio_metadata (env : AudioEnv) : MetaDict × Bool :=
  match env.ffprobe with
  | none => (MetaDict.empty, true)
  | some probe =>
    if !(probeDurationOk probe.duration) then (MetaDict.empty, true)
    else
      ({ image := none, video := none, duration := probe.duration,
         audio := probe.audio, ffprobe := true,
         mediainfo := env.mediainfo }, false)

/-- `extract_metadata(file_path, mime_type)`: route on the mime prefix;
unrecognized and non-media types yield `({}, False)`.  The extractors catch
internally, so the router's own handler never converts anything further. -/
def extract_metadata (env : MediaEnv) (mime_type : String) : MetaDict × Bool :=
  if mime_type.startsWith "image/" then extract_image_metadata env.image mime_type
  else if mime_type.startsWith "video/" then extract_video_metadata env.video
  else if mime_type.startsWith "audio/" then extract_audio_metadata env.audio
  else (MetaDict.empty, false)

/-! Part 6: the ThumbHash encoder (`src/fileindex/services/thumbhash.py`,
`rgba_to_thumb_hash`).  Python floats are modelled by exact rationals and
`math.cos(math.pi * r)` by a caller-supplied `cosf r`; the properties
proved below hold for every such `cosf`, and the arithmetic the claims
depend on (the fully-opaque alpha average, truthiness and sign tests) is
exact in both the float and the rational reading.  Python's `round` is
round-half-to-even; `x << n` is `x * 2 ^ n`, `x >> n` is floor division by
`2 ^ n`, and `x & 255` is `x mod 256`, exactly as for Python ints. -/

/-- Python's `round` on an exact value: nearest integer, ties to even. -/
def pythonRound (x : ℚ) : ℤ :=
  let n := Int.floor x
  let r := x - n
  if r < 1 / 2 then n
  else if 1 / 2 < r then n + 1
  else if n % 2 = 0 then n else n + 1

/-- Accumulator of the first pixel loop: the four running sums
`avg_r, avg_g, avg_b, avg_a`. -/
structure RGBAavg where
  r : ℚ
  g : ℚ
  b : ℚ
  a : ℚ
deriving DecidableEq

/-- One step of the averaging loop (`j = i * 4`; a missing index reads 0,
unreachable when the buffer has its stated `w * h * 4` length). -/
def thumbAvgStep (rgba : List Nat) (acc : RGBAavg) (i : Nat) : RGBAavg :=
  let j := i * 4
  let alpha : ℚ := (rgba.getD (j + 3) 0 : ℚ) / 255
  { r := acc.r + alpha / 255 * (rgba.getD j 0 : ℚ),
    g := acc.g + alpha / 255 * (rgba.getD (j + 1) 0 : ℚ),
    b := acc.b + alpha / 255 * (rgba.getD (j + 2) 0 : ℚ),
    a := acc.a + alpha }

/-- The raw sums of the first pixel loop. -/
def thumbAvg (w h : Nat) (rgba : List Nat) : RGBAavg :=
  (List.range (w * h)).foldl (thumbAvgStep rgba) ⟨0, 0, 0, 0⟩

/-- The `if avg_a:` normalization of the average color. -/
def thumbAvgNorm (w h : Nat) (rgba : List Nat) : RGBAavg :=
  let s := thumbAvg w h rgba
  if s.a ≠ 0 then { s with r := s.r / s.a, g := s.g / s.a, b := s.b / s.a }
  else s

/-- `has_alpha = avg_a < w * h`. -/
def thumbHasAlpha (w h : Nat) (rgba : List Nat) : Bool :=
  decide ((thumbAvg w h rgba).a < ((w * h : Nat) : ℚ))

/-- `l_limit = 5 if has_alpha else 7`. -/
def thumbLLimit (hasAlpha : Bool) : ℚ :=
  if hasAlpha then 5 else 7

/-- `lx = max(1, round(l_limit * w / max(w, h)))`. -/
def thumbLx (w h : Nat) (hasAlpha : Bool) : Nat :=
  max 1 (pythonRound (thumbLLimit hasAlpha * w / ((max w h : Nat) : ℚ))).toNat

/-- `ly = max(1, round(l_limit * h / max(w, h)))`. -/
def thumbLy (w h : Nat) (hasAlpha : Bool) : Nat :=
  max 1 (pythonRound (thumbLLimit hasAlpha * h / ((max w h : Nat) : ℚ))).toNat

/-- The alpha-composited color of pixel `i` plus its coverage
(`r`, `g`, `b`, `alpha` of the second pixel loop). -/
def thumbPixel (w h : Nat) (rgba : List Nat) (i : Nat) : ℚ × ℚ × ℚ × ℚ :=
  let avg := thumbAvgNorm w h rgba
  let j := i * 4
  let alpha : ℚ := (rgba.getD (j + 3) 0 : ℚ) / 255
  (avg.r * (1 - alpha) + alpha / 255 * (rgba.getD j 0 : ℚ),
   avg.g * (1 - alpha) + alpha / 255 * (rgba.getD (j + 1) 0 : ℚ),
   avg.b * (1 - alpha) + alpha / 255 * (rgba.getD (j + 2) 0 : ℚ),
   alpha)

/-- The luma channel `l`. -/
def thumbChanL (w h : Nat) (rgba : List Nat) : List ℚ :=
  (List.range (w * h)).map (fun i =>
    let p := thumbPixel w h rgba i
    (p.1 + p.2.1 + p.2.2.1) / 3)

/-- The chroma channel `p = (r + g) / 2 - b`. -/
def thumbChanP (w h : Nat) (rgba : List Nat) : List ℚ :=
  (List.range (w * h)).map (fun i =>
    let p := thumbPixel w h rgba i
    (p.1 + p.2.1) / 2 - p.2.2.1)

/-- The chroma channel `q = r - g`. -/
def thumbChanQ (w h : Nat) (rgba : List Nat) : List ℚ :=
  (List.range (w * h)).map (fun i =>
    let p := thumbPixel w h rgba i
    p.1 - p.2.1)

/-- The alpha channel `a`. -/
def thumbChanA (w h : Nat) (rgba : List Nat) : List ℚ :=
  (List.range (w * h)).map (fun i => (thumbPixel w h rgba i).2.2.2)

/-- The `while cx * ny < nx * (ny - cy)` enumeration of `cx` values,
starting at `cx`. -/
def cxWhile (nx ny cy cx : Nat) : List Nat :=
  if h : cx * ny < nx * (ny - cy) then cx :: cxWhile nx ny cy (cx + 1)
  else []
termination_by nx - cx
decreasing_by
  have hle : nx * (ny - cy) ≤ nx * ny := Nat.mul_le_mul_left nx (Nat.sub_le _ _)
  have hlt : cx * ny < nx * ny := lt_of_lt_of_le h hle
  have hcx : cx < nx := by
    by_contra hc
    push_neg at hc
    have hge : nx * ny ≤ cx * ny := Nat.mul_le_mul_right ny hc
    omega
  omega

/-- The coefficient list positions of `encode_channel`, in loop order. -/
def thumbPairs (nx ny : Nat) : List (Nat × Nat) :=
  (List.range ny).flatMap (fun cy => (cxWhile nx ny cy 0).map (fun cx => (cx, cy)))

/-- The DCT-II coefficient `f` of `encode_channel` at `(cx, cy)`:
`fx[x] = cos(pi / w * cx * (x + 0.5))` is `cosf (cx * (x + 1/2) / w)`
here, the double loop accumulates `channel[x + y*w] * fx[x] * fy`, and the
sum is divided by `w * h`. -/
def thumbCoeff (cosf : ℚ → ℚ) (w h : Nat) (channel : List ℚ) (cx cy : Nat) : ℚ :=
  ((List.range h).foldl (fun acc y =>
    (List.range w).foldl (fun acc2 x =>
      acc2 + channel.getD (x + y * w) 0 *
        cosf ((cx : ℚ) * ((x : ℚ) + 1 / 2) / (w : ℚ)) *
        cosf ((cy : ℚ) * ((y : ℚ) + 1 / 2) / (h : ℚ))) acc) 0) /
  ((w : ℚ) * (h : ℚ))

/-- The result triple of `encode_channel`. -/
structure ThumbChannel where
  dc : ℚ
  ac : List ℚ
  scale : ℚ
deriving DecidableEq

/-- One iteration of `encode_channel`'s coefficient loop: the `(0, 0)`
position becomes the DC term, every other position appends an AC term and
raises the running scale. -/
def thumbChanStep (cosf : ℚ → ℚ) (w h : Nat) (channel : List ℚ)
    (st : ℚ × List ℚ × ℚ) (p : Nat × Nat) : ℚ × List ℚ × ℚ :=
  let f := thumbCoeff cosf w h channel p.1 p.2
  if 0 < p.1 ∨ 0 < p.2 then (st.1, st.2.1 ++ [f], max st.2.2 (abs f))
  else (f, st.2.1, st.2.2)

/-- `encode_channel(channel, nx, ny)`: fold the coefficient loop, then the
`if scale:` normalization `ac[i] = 0.5 + 0.5 / scale * ac[i]`. -/
def encode_channel (cosf : ℚ → ℚ) (w h : Nat) (channel : List ℚ)
    (nx ny : Nat) : ThumbChannel :=
  let r := (thumbPairs nx ny).foldl (thumbChanStep cosf w h channel) (0, [], 0)
  if r.2.2 ≠ 0 then
    { dc := r.1, ac := r.2.1.map (fun f => 1 / 2 + 1 / 2 / r.2.2 * f),
      scale := r.2.2 }
  else
    { dc := r.1, ac := r.2.1, scale := r.2.2 }

/-- `header24`: `round(63*l_dc) | round(31.5+31.5*p_dc)<<6 |
round(31.5+31.5*q_dc)<<12 | round(31*l_scale)<<18 | has_alpha<<23`. -/
def thumbHeader24 (lDc pDc qDc lScale : ℚ) (hasAlpha : Bool) : ℤ :=
  Int.lor (Int.lor (Int.lor (Int.lor (pythonRound (63 * lDc))
    (pythonRound (63 / 2 + 63 / 2 * pDc) * 2 ^ 6))
    (pythonRound (63 / 2 + 63 / 2 * qDc) * 2 ^ 12))
    (pythonRound (31 * lScale) * 2 ^ 18))
    ((if hasAlpha then 1 else 0) * 2 ^ 23)

/-- `header16`: `(ly if is_landscape else lx) | round(63*p_scale)<<3 |
round(63*q_scale)<<9 | is_landscape<<15`. -/
def thumbHeader16 (lx ly : Nat) (pScale qScale : ℚ) (isLandscape : Bool) : ℤ :=
  Int.lor (Int.lor (Int.lor ((if isLandscape then (ly : ℤ) else (lx : ℤ)))
    (pythonRound (63 * pScale) * 2 ^ 3))
    (pythonRound (63 * qScale) * 2 ^ 9))
    ((if isLandscape then 1 else 0) * 2 ^ 15)

/-- The nibble-packing loop over one AC list: `u = int(round(15.0 * f))`;
on an odd half-byte `thumb_hash[-1] |= u << 4`, otherwise append `u`. -/
def packCoeffs (st : List ℤ × Bool) (coeffs : List ℚ) : List ℤ × Bool :=
  coeffs.foldl (fun acc f =>
    let u := pythonRound (15 * f)
    if acc.2 then (acc.1.dropLast ++ [Int.lor (acc.1.getLastD 0) (u * 2 ^ 4)], false)
    else (acc.1 ++ [u], true)) st

/-- `rgba_to_thumb_hash(w, h, rgba)`.  The `ValueError` guard is the
source's; the `ZeroDivisionError` arises in Python inside `lx`
(`max(w, h)` is 0) or inside the first `encode_channel` (`f /= w * h`)
whenever `w * h = 0`, and is surfaced here before either. -/
def rgba_to_thumb_hash (cosf : ℚ → ℚ) (w h : Nat) (rgba : List Nat) :
    Except String (List ℤ) :=
  if w > 100 ∨ h > 100 then .error "ValueError"
  else if w * h = 0 then .error "ZeroDivisionError"
  else
    let hasAlpha := thumbHasAlpha w h rgba
    let lx := thumbLx w h hasAlpha
    let ly := thumbLy w h hasAlpha
    let lRes := encode_channel cosf w h (thumbChanL w h rgba) (max 3 lx) (max 3 ly)
    let pRes := encode_channel cosf w h (thumbChanP w h rgba) 3 3
    let qRes := encode_channel cosf w h (thumbChanQ w h rgba) 3 3
    let aRes :=
      if hasAlpha then encode_channel cosf w h (thumbChanA w h rgba) 5 5
      else { dc := 1, ac := [], scale := 1 : ThumbChannel }
    let isLandscape := decide (w > h)
    let h24 := thumbHeader24 lRes.dc pRes.dc qRes.dc lRes.scale hasAlpha
    let h16 := thumbHeader16 lx ly pRes.scale qRes.scale isLandscape
    let hash0 : List ℤ :=
      [Int.emod h24 256, Int.emod (Int.fdiv h24 (2 ^ 8)) 256,
       Int.fdiv h24 (2 ^ 16), Int.emod h16 256, Int.fdiv h16 (2 ^ 8)]
    let hash1 :=
      if hasAlpha then
        hash0 ++ [Int.lor (pythonRound (15 * aRes.dc))
          (pythonRound (15 * aRes.scale) * 2 ^ 4)]
      else hash0
    let st1 := packCoeffs (hash1, false) lRes.ac
    let st2 := packCoeffs st1 pRes.ac
    let st3 := packCoeffs st2 qRes.ac
    let st4 := if hasAlpha then packCoeffs st3 aRes.ac else st3
    .ok st4.1

/-- AC coefficients a channel encoded over an `nx` by `ny` grid yields. -/
def thumbAcCount (nx ny : Nat) : Nat :=
  (thumbPairs nx ny).length - 1

/-- Total luma-then-P-then-Q AC coefficient count of a fully opaque
encode. -/
def thumbAcTotalOpaque (w h : Nat) : Nat :=
  thumbAcCount (max 3 (thumbLx w h false)) (max 3 (thumbLy w h false)) +
    thumbAcCount 3 3 + thumbAcCount 3 3

/-! Part 7: concrete filesystems and byte inputs used by the witness and
counterexample theorems. -/

/-- Two regular files `a` and `b` on one device, same size, same mtime,
different bytes. -/
def fsShallowTwin : FS :=
  { files := fun p => if p = ["a"] then some 0 else if p = ["b"] then some 1 else none,
    dirs := fun p => p.isEmpty,
    inodes := fun i => if i = 0 then ⟨0, [1], 0⟩ else ⟨0, [2], 0⟩,
    dirDev := fun _ => 0,
    nextIno := 2 }

/-- Two regular files `a` and `b` on one device with different byte
lengths. -/
def fsSizeTwin : FS :=
  { files := fun p => if p = ["a"] then some 0 else if p = ["b"] then some 1 else none,
    dirs := fun p => p.isEmpty,
    inodes := fun i => if i = 0 then ⟨0, [1], 0⟩ else ⟨0, [2, 3], 0⟩,
    dirDev := fun _ => 0,
    nextIno := 2 }

/-- One regular file `s`; the destination `d` does not exist yet. -/
def fsSingle : FS :=
  { files := fun p => if p = ["s"] then some 0 else none,
    dirs := fun p => p.isEmpty,
    inodes := fun _ => ⟨0, [7], 0⟩,
    dirDev := fun _ => 0,
    nextIno := 1 }

/-- Two distinct regular files `s1` and `s2` with byte-identical content
(but different mtimes) on one device; `d` does not exist yet. -/
def fsDupPair : FS :=
  { files := fun p => if p = ["s1"] then some 0 else if p = ["s2"] then some 1 else none,
    dirs := fun p => p.isEmpty,
    inodes := fun i => if i = 0 then ⟨0, [9], 0⟩ else ⟨0, [9], 5⟩,
    dirDev := fun _ => 0,
    nextIno := 2 }

/-- A file `a` on device 5 while the directory tree holding the absent
destination `b` lives on device 0. -/
def fsCrossDev : FS :=
  { files := fun p => if p = ["a"] then some 0 else none,
    dirs := fun p => p.isEmpty,
    inodes := fun _ => ⟨5, [7], 0⟩,
    dirDev := fun _ => 0,
    nextIno := 1 }

/-- 8 KiB of filler followed by the tag `mvhd`: the tag's first occurrence
is at byte offset 8192, just past the first search window. -/
def mvhdPastWindow : List Nat :=
  List.replicate 8192 0 ++ mvhdTag

/-- A minimal mvhd box at offset 0: tag, version 0, flags, 8 timestamp
bytes, timescale 1000, duration 2000. -/
def avifSample : List Nat :=
  mvhdTag ++ [0, 0, 0, 0] ++ List.replicate 8 0 ++ [0, 0, 3, 232] ++ [0, 0, 7, 208]

/-- A 16-byte ANMF payload whose duration field holds 100 ms. -/
def anmfPayload100 : List Nat :=
  List.replicate 12 0 ++ [100, 0, 0, 0]

/-- A WebP chunk list: one non-animation chunk and two 100 ms frames. -/
def webpChunksSample : List WebpChunk :=
  [.other [86, 80, 56, 88] (List.replicate 10 0),
   .anmf anmfPayload100, .anmf anmfPayload100]

/-- The serialized bytes of `webpChunksSample`. -/
def webpSample : List Nat :=
  serializeWebp [0, 0, 0, 0] webpChunksSample

/-- An image environment Pillow accepts: 4x3 pixels, a thumbhash, no
animation. -/
def ieGood : ImageEnv :=
  { opened := some { width := 4, height := 3 }, thumbhash := some [1],
    animDuration := none }

/-- An image environment whose reported width is zero. -/
def ieBad : ImageEnv :=
  { opened := some { width := 0, height := 3 }, thumbhash := some [1],
    animDuration := none }

/-- The valid video stream `veGood` reports. -/
def vsGood : VideoStreamM :=
  { width := some 640, height := some 480, frame_rate := some 30 }

/-- A video environment with a complete, valid ffprobe report. -/
def veGood : VideoEnv :=
  { ffprobe := some { video := some vsGood, duration := some 1000, audio := true },
    mediainfo := true }

/-- An audio environment with a positive duration. -/
def aeGood : AudioEnv :=
  { ffprobe := some { duration := some 5, audio := true }, mediainfo := false }

/-! Theorems.  Helper lemmas come first, then one theorem per claim with
its witness or counterexample. -/

theorem samefile_no_chl (fs : FS) (p q : FPath) :
    samefile fs p q ≠ .error .cannotHardLink := by
  unfold samefile
  repeat' split
  all_goals simp

theorem on_same_filesystem_no_chl (fs : FS) (p q : FPath) :
    on_same_filesystem fs p q ≠ .error .cannotHardLink := by
  unfold on_same_filesystem
  repeat' split
  all_goals simp

theorem filecmp_cmp_no_chl (fs : FS) (p q : FPath) :
    filecmp_cmp fs p q ≠ .error .cannotHardLink := by
  unfold filecmp_cmp
  dsimp only
  repeat' split
  all_goals simp

theorem same_contents_no_chl (fs : FS) (p q : FPath) :
    same_contents fs p q ≠ .error .cannotHardLink :=
  filecmp_cmp_no_chl fs p q

theorem hardlink_to_no_chl (fs : FS) (p q : FPath) :
    hardlink_to fs p q ≠ .error .cannotHardLink := by
  unfold hardlink_to
  repeat' split
  all_goals simp

theorem mkdirParentsOf_no_chl (fs : FS) (p : FPath) :
    fs.mkdirParentsOf p ≠ .error .cannotHardLink := by
  unfold FS.mkdirParentsOf
  split <;> simp

theorem copy2_no_chl (fs : FS) (p q : FPath) :
    copy2 fs p q ≠ .error .cannotHardLink := by
  unfold copy2
  repeat' split
  all_goals simp

theorem smartlink_no_chl (fs : FS) (p q : FPath) :
    (smartlink fs p q).1 ≠ .error .cannotHardLink := by
  unfold smartlink
  repeat' split
  all_goals intro hcon
  all_goals simp at hcon
  all_goals subst hcon
  all_goals
    first
      | exact absurd (by assumption) (same_contents_no_chl _ _ _)
      | exact absurd (by assumption) (hardlink_to_no_chl _ _ _)
      | exact absurd (by assumption) (mkdirParentsOf_no_chl _ _)

theorem smartcopy_no_chl (fs : FS) (p q : FPath) :
    (smartcopy fs p q).1 ≠ .error .cannotHardLink := by
  unfold smartcopy
  repeat' split
  all_goals intro hcon
  all_goals simp at hcon
  all_goals subst hcon
  all_goals
    first
      | exact absurd (by assumption) (same_contents_no_chl _ _ _)
      | exact absurd (by assumption) (copy2_no_chl _ _ _)
      | exact absurd (by assumption) (mkdirParentsOf_no_chl _ _)

/-- C1, counterexample: the claim says a placement whose destination
exists with different bytes always fails loudly and leaves the filesystem
unchanged.  On `fsShallowTwin` the two files have different bytes but equal
size and mtime, so `filecmp.cmp`'s default shallow comparison reports them
equal: `smartlink` succeeds and silently relinks the source onto the
destination's inode, discarding the source content. -/
theorem smartlink_shallow_mismatch_counterexample :
    (fsShallowTwin.inodes 0).bytes ≠ (fsShallowTwin.inodes 1).bytes ∧
    fsShallowTwin.files ["a"] = some 0 ∧
    fsShallowTwin.files ["b"] = some 1 ∧
    (smartlink fsShallowTwin ["a"] ["b"]).1 = .ok () ∧
    (smartlink fsShallowTwin ["a"] ["b"]).2.files ["a"] = some 1 := by
  refine ⟨by decide, by decide, by decide, ?_, ?_⟩ <;> rfl

/-- C1 (amended): when the destination exists and `filecmp.cmp` detects
the mismatch — the bytes differ and the (size, mtime) stat signatures also
differ — both `smartlink` and `smartcopy` fail loudly with an
`AssertionError` and leave the filesystem exactly as it was; only when the
bytes differ under an identical stat signature does the shallow comparison
miss the mismatch. -/
theorem smart_place_detected_mismatch_fails_loudly (fs : FS) (src dst : FPath)
    (i j : Nat) (hsrc : fs.files src = some i) (hdst : fs.files dst = some j)
    (hbytes : (fs.inodes i).bytes ≠ (fs.inodes j).bytes)
    (hsig : (fs.inodes i).bytes.length ≠ (fs.inodes j).bytes.length ∨
      (fs.inodes i).mtime ≠ (fs.inodes j).mtime) :
    smartlink fs src dst = (.error .assertionFailed, fs) ∧
    smartcopy fs src dst = (.error .assertionFailed, fs) := by
  have hsx : fs.pathExists src = true := by
    simp [FS.pathExists, FS.isFile, hsrc]
  have hdx : fs.pathExists dst = true := by
    simp [FS.pathExists, FS.isFile, hdst]
  have hcmp : same_contents fs src dst = .ok false := by
    unfold same_contents filecmp_cmp
    rcases hsig with hl | hm
    · simp [hsx, hdx, hsrc, hdst, hl]
    · by_cases hlen : (fs.inodes i).bytes.length = (fs.inodes j).bytes.length
      · simp [hsx, hdx, hsrc, hdst, hlen, hm, hbytes]
      · simp [hsx, hdx, hsrc, hdst, hlen]
  constructor
  · unfold smartlink
    simp [hsx, hdx, hcmp]
  · unfold smartcopy
    simp [hsx, hdx, hcmp]

/-- C1 witness: on `fsSizeTwin` the sizes differ, the mismatch is detected,
and both placement primitives fail with the filesystem untouched. -/
theorem smart_place_detected_mismatch_fails_loudly_witness :
    (fsSizeTwin.inodes 0).bytes ≠ (fsSizeTwin.inodes 1).bytes ∧
    smartlink fsSizeTwin ["a"] ["b"] = (.error .assertionFailed, fsSizeTwin) ∧
    smartcopy fsSizeTwin ["a"] ["b"] = (.error .assertionFailed, fsSizeTwin) := by
  have h := smart_place_detected_mismatch_fails_loudly fsSizeTwin ["a"] ["b"] 0 1
    (by decide) (by decide) (by decide) (Or.inl (by decide))
  exact ⟨by decide, h.1, h.2⟩

/-- C4: `smartadd` raises `CannotHardLinkError` exactly when the
same-underlying-file check failed to trigger, `on_same_filesystem` reported
different devices, and `only_hard_link` is set; and whenever it raises that
error, the filesystem is returned unchanged — no partial file and no
directory has been created. -/
theorem smartadd_cannot_hardlink_iff (fs : FS) (src dst : FPath) (ohl : Bool) :
    ((smartadd fs src dst ohl).1 = .error .cannotHardLink ↔
      ((if fs.pathExists dst then samefile fs src dst else .ok false) = .ok false ∧
        on_same_filesystem fs src dst = .ok false ∧ ohl = true)) ∧
    ((smartadd fs src dst ohl).1 = .error .cannotHardLink →
      (smartadd fs src dst ohl).2 = fs) := by
  unfold smartadd
  rcases hchk : (if fs.pathExists dst then samefile fs src dst else .ok false :
      Except PyErr Bool) with e | b
  · have hne : e ≠ .cannotHardLink := by
      rcases hpe : fs.pathExists dst with _ | _
      · rw [hpe] at hchk
        simp at hchk
      · rw [hpe] at hchk
        simp at hchk
        intro hco
        exact samefile_no_chl fs src dst (by rw [hchk, hco])
    simp [hchk, hne]
  · cases b
    · rcases hosf : on_same_filesystem fs src dst with e2 | b2
      · have hne : e2 ≠ .cannotHardLink := by
          intro hco
          exact on_same_filesystem_no_chl fs src dst (by rw [hosf, hco])
        simp [hchk, hosf, hne]
      · cases b2
        · cases ohl
          · rcases hsc : smartcopy fs src dst with ⟨r, fs1⟩
            have hne : r ≠ .error .cannotHardLink := by
              have := smartcopy_no_chl fs src dst
              rw [hsc] at this
              exact this
            rcases r with e3 | b3
            · have hne2 : e3 ≠ PyErr.cannotHardLink := by
                intro hh
                exact hne (by rw [hh])
              simp [hchk, hosf, hsc]
              exact ⟨hne2, fun hco => absurd hco hne2⟩
            · simp [hchk, hosf, hsc]
          · simp [hchk, hosf]
        · rcases hsl : smartlink fs src dst with ⟨r, fs1⟩
          have hne : r ≠ .error .cannotHardLink := by
            have := smartlink_no_chl fs src dst
            rw [hsl] at this
            exact this
          rcases r with e3 | b3
          · have hne2 : e3 ≠ PyErr.cannotHardLink := by
              intro hh
              exact hne (by rw [hh])
            simp [hchk, hosf, hsl]
            exact ⟨hne2, fun hco => absurd hco hne2⟩
          · simp [hchk, hosf, hsl]
    · simp [hchk]

/-- C4 witness: on `fsCrossDev` the source sits on device 5 and the
destination tree on device 0; with `only_hard_link=True` the call raises
`CannotHardLinkError` and the filesystem is unchanged. -/
theorem smartadd_cannot_hardlink_iff_witness :
    (smartadd fsCrossDev ["a"] ["b"] true).1 = .error .cannotHardLink ∧
    (smartadd fsCrossDev ["a"] ["b"] true).2 = fsCrossDev := by
  have h := smartadd_cannot_hardlink_iff fsCrossDev ["a"] ["b"] true
  have hosf : on_same_filesystem fsCrossDev ["a"] ["b"] = .ok false := by
    simp [on_same_filesystem, findExistingAncestor, FS.devOf, FS.pathExists,
      FS.isFile, fsCrossDev]
  have hchk : (if fsCrossDev.pathExists ["b"] then samefile fsCrossDev ["a"] ["b"]
      else .ok false : Except PyErr Bool) = .ok false := by
    simp [FS.pathExists, FS.isFile, fsCrossDev]
  have h1 := h.1.mpr ⟨hchk, hosf, rfl⟩
  exact ⟨h1, h.2 h1⟩

theorem read_in_chunks_foldl {α : Type} (f : α → Nat → α) (n : Nat) (hn : n ≠ 0) :
    ∀ (m : Nat) (data : List Nat), data.length ≤ m → ∀ (s : α),
      (read_in_chunks n data).foldl (fun st piece => piece.foldl f st) s =
        data.foldl f s := by
  intro m
  induction m with
  | zero =>
    intro data hlen s
    have hd : data = [] := List.length_eq_zero.mp (Nat.le_zero.mp hlen)
    subst hd
    unfold read_in_chunks
    simp
  | succ m ih =>
    intro data hlen s
    by_cases hd : data = []
    · subst hd
      unfold read_in_chunks
      simp
    · unfold read_in_chunks
      simp only [hd, if_false, hn, List.foldl_cons]
      rw [ih (data.drop n) ?hdrop (List.foldl f s (data.take n))]
      · rw [← List.foldl_append]
        rw [List.take_append_drop]
      case hdrop =>
        have h1 : 0 < data.length := List.length_pos.mpr hd
        simp only [List.length_drop]
        omega

theorem smartlink_ok_samefile (fs : FS) (src dst : FPath) (u : Unit) (fsx : FS)
    (h : smartlink fs src dst = (.ok u, fsx)) :
    ∃ k, fsx.files src = some k ∧ fsx.files dst = some k := by
  unfold smartlink at h
  rcases hpx : fs.pathExists src with _ | _
  · simp [hpx] at h
  · rcases hdx : fs.pathExists dst with _ | _
    · simp only [hpx, hdx, Bool.not_true, Bool.false_eq_true, if_false,
        if_true] at h
      rcases hmk : fs.mkdirParentsOf dst with e | fsm
      · simp [hmk] at h
      · simp only [hmk] at h
        rcases hhl : hardlink_to fsm dst src with e | fs2
        · simp [hhl] at h
        · simp only [hhl] at h
          simp at h
          subst h
          unfold hardlink_to at hhl
          rcases hfi : fsm.files src with _ | i
          · simp [hfi] at hhl
          · simp only [hfi] at hhl
            split_ifs at hhl <;> simp at hhl
            subst hhl
            refine ⟨i, ?_, ?_⟩
            · by_cases hsd : src = dst <;> simp [FS.setFile, hsd, hfi]
            · simp [FS.setFile]
    · simp only [hpx, hdx, Bool.not_true, Bool.false_eq_true, if_false,
        if_true] at h
      rcases hsc : same_contents fs src dst with e | c
      · simp [hsc] at h
      · simp only [hsc] at h
        rcases c with _ | _
        · simp at h
        · simp only [Bool.not_true, Bool.false_eq_true, if_false] at h
          rcases hhl : hardlink_to (fs.unlink src) src dst with e | fs2
          · simp [hhl] at h
          · simp only [hhl] at h
            simp at h
            subst h
            unfold hardlink_to at hhl
            rcases hfi : (fs.unlink src).files dst with _ | j
            · simp [hfi] at hhl
            · simp only [hfi] at hhl
              split_ifs at hhl <;> simp at hhl
              subst hhl
              have hfi2 := hfi
              simp only [FS.unlink] at hfi2
              split_ifs at hfi2 with hds
              refine ⟨j, ?_, ?_⟩
              · simp [FS.setFile]
              · simp [FS.setFile, FS.unlink, hds, hfi2]

/-- C2: placement is idempotent on one device.  After a successful
`smartadd(src, dst)` whose `on_same_filesystem` check reported the same
device, the source and destination name the same inode, so a second
`smartadd` with the same arguments takes the same-underlying-file branch,
returns that branch's `True`, and hands back the filesystem unchanged — no
new inode and no copy; and the chunk-streamed double digest of `hash_file`
is a function of exactly the file's bytes, so hashing the same bytes twice
yields the same `sha1`/`sha512` digests. -/
theorem smartadd_idempotent_same_device (fs : FS) (src dst : FPath) (ohl : Bool)
    (r : Option Bool) (fs1 : FS)
    (h1 : smartadd fs src dst ohl = (.ok r, fs1))
    (h2 : on_same_filesystem fs src dst = .ok true) :
    smartadd fs1 src dst ohl = (.ok (some true), fs1) ∧
    ∀ (σ₁ σ₂ τ : Type) (absorb1 : σ₁ → Nat → σ₁) (init1 : σ₁) (enc1 : σ₁ → τ)
      (absorb512 : σ₂ → Nat → σ₂) (init512 : σ₂) (enc512 : σ₂ → τ)
      (data : List Nat),
      hash_file absorb1 init1 enc1 absorb512 init512 enc512 data =
        { sha1 := enc1 (data.foldl absorb1 init1),
          sha512 := enc512 (data.foldl absorb512 init512) } := by
  have hashEq : ∀ (σ₁ σ₂ τ : Type) (absorb1 : σ₁ → Nat → σ₁) (init1 : σ₁)
      (enc1 : σ₁ → τ) (absorb512 : σ₂ → Nat → σ₂) (init512 : σ₂)
      (enc512 : σ₂ → τ) (data : List Nat),
      hash_file absorb1 init1 enc1 absorb512 init512 enc512 data =
        { sha1 := enc1 (data.foldl absorb1 init1),
          sha512 := enc512 (data.foldl absorb512 init512) } := by
    intro σ₁ σ₂ τ a1 i1 e1 a5 i5 e5 data
    unfold hash_file
    rw [read_in_chunks_foldl a1 1024 (by omega) data.length data (le_refl _) i1]
    rw [read_in_chunks_foldl a5 1024 (by omega) data.length data (le_refl _) i5]
  refine ⟨?_, hashEq⟩
  unfold smartadd at h1
  rcases hchk : (if fs.pathExists dst then samefile fs src dst else .ok false :
      Except PyErr Bool) with e | b
  · rw [hchk] at h1
    simp at h1
  · rw [hchk] at h1
    cases b
    · rw [h2] at h1
      rcases hsl : smartlink fs src dst with ⟨res, fsx⟩
      rw [hsl] at h1
      rcases res with e | u
      · simp at h1
      · simp at h1
        obtain ⟨hr, hfs⟩ := h1
        subst hfs
        have key := smartlink_ok_samefile fs src dst u fsx hsl
        obtain ⟨k, hks, hkd⟩ := key
        have hex : fsx.pathExists dst = true := by
          simp [FS.pathExists, FS.isFile, hkd]
        have hsf : samefile fsx src dst = .ok true := by
          unfold samefile
          rw [hks, hkd]
          simp
        unfold smartadd
        rw [if_pos hex, hsf]
    · simp at h1
      obtain ⟨hr, hfs⟩ := h1
      subst hfs
      unfold smartadd
      rw [hchk]

/-- C2 witness: place `s` at the fresh destination `d` on `fsSingle`, then
place it again; the second call reports the same-underlying-file `True` and
changes nothing. -/
theorem smartadd_idempotent_same_device_witness :
    smartadd ((smartadd fsSingle ["s"] ["d"] false).2) ["s"] ["d"] false =
      (.ok (some true), (smartadd fsSingle ["s"] ["d"] false).2) ∧
    hash_file (fun s b => s ++ [b]) ([] : List Nat) (fun s => s)
        (fun s b => s ++ [b]) ([] : List Nat) (fun s => s) [3, 1, 4] =
      { sha1 := [3, 1, 4], sha512 := [3, 1, 4] } := by
  have hosf : on_same_filesystem fsSingle ["s"] ["d"] = .ok true := by
    have hanc : findExistingAncestor fsSingle (List.dropLast ["d"]) = [] := by
      simp [findExistingAncestor]
    unfold on_same_filesystem
    rw [hanc]
    rfl
  have h1 : smartadd fsSingle ["s"] ["d"] false =
      (.ok none, (smartadd fsSingle ["s"] ["d"] false).2) := by
    have h1c : (smartadd fsSingle ["s"] ["d"] false).1 = .ok none := by
      unfold smartadd
      rw [hosf]
      rfl
    exact Prod.ext h1c rfl
  have h := smartadd_idempotent_same_device fsSingle ["s"] ["d"] false none
    (smartadd fsSingle ["s"] ["d"] false).2 h1 hosf
  refine ⟨h.1, ?_⟩
  rw [h.2 (List Nat) (List Nat) (List Nat) (fun s b => s ++ [b]) [] (fun s => s)
    (fun s b => s ++ [b]) [] (fun s => s) [3, 1, 4]]
  rfl

theorem smartlink_fresh (fs : FS) (src dst : FPath) (i : Nat)
    (hsrc : fs.files src = some i)
    (hdst1 : fs.files dst = none) (hdst2 : fs.dirs dst = false)
    (hdstpre : dst.isPrefixOf dst.dropLast = false)
    (hcond : ∀ k, k ≤ dst.dropLast.length → fs.isFile (dst.dropLast.take k) = false)
    (hdev : fs.dirDev dst.dropLast = (fs.inodes i).dev) :
    smartlink fs src dst =
      (.ok (), FS.setFile
        { fs with dirs := fun q => fs.dirs q || q.isPrefixOf dst.dropLast }
        dst i) := by
  have hpx : fs.pathExists src = true := by
    simp [FS.pathExists, FS.isFile, hsrc]
  have hdx : fs.pathExists dst = false := by
    simp [FS.pathExists, FS.isFile, hdst1, hdst2]
  have hmk : fs.mkdirParentsOf dst =
      .ok { fs with dirs := fun q => fs.dirs q || q.isPrefixOf dst.dropLast } := by
    unfold FS.mkdirParentsOf
    rw [if_neg]
    simp only [List.any_eq_true, List.mem_range, not_exists, not_and]
    intro k hk
    rw [hcond k (by omega)]
    simp
  have hpref : List.isPrefixOf (List.dropLast dst) (List.dropLast dst) = true := by
    rw [List.isPrefixOf_iff_prefix]
  have hhl : hardlink_to
      { fs with dirs := fun q => fs.dirs q || q.isPrefixOf dst.dropLast } dst src =
      .ok (FS.setFile
        { fs with dirs := fun q => fs.dirs q || q.isPrefixOf dst.dropLast } dst i) := by
    unfold hardlink_to
    simp only [hsrc]
    have c1 : FS.pathExists
        { fs with dirs := fun q => fs.dirs q || q.isPrefixOf dst.dropLast } dst = false := by
      simp [FS.pathExists, FS.isFile, hdst1, hdst2, hdstpre]
    simp only [c1, Bool.false_eq_true, if_false]
    rw [if_neg, if_neg]
    · simp [hdev]
    · simp [hpref]
  unfold smartlink
  simp only [hpx, hdx, Bool.not_true, Bool.false_eq_true, if_false, if_true,
    hmk, hhl]

theorem smartlink_onto_existing (fs : FS) (src dst : FPath) (i j : Nat)
    (hsrc : fs.files src = some i) (hdst : fs.files dst = some j)
    (hne : dst ≠ src)
    (hbytes : (fs.inodes i).bytes = (fs.inodes j).bytes)
    (hpdir : fs.dirs src.dropLast = true)
    (hsdir : fs.dirs src = false)
    (hdev : fs.dirDev src.dropLast = (fs.inodes j).dev) :
    smartlink fs src dst = (.ok (), (fs.unlink src).setFile src j) := by
  have hpx : fs.pathExists src = true := by
    simp [FS.pathExists, FS.isFile, hsrc]
  have hdx : fs.pathExists dst = true := by
    simp [FS.pathExists, FS.isFile, hdst]
  have hcmp : same_contents fs src dst = .ok true := by
    unfold same_contents filecmp_cmp
    have hlen : (fs.inodes i).bytes.length = (fs.inodes j).bytes.length := by
      rw [hbytes]
    by_cases hmt : (fs.inodes i).mtime = (fs.inodes j).mtime
    · simp [hpx, hdx, hsrc, hdst, hlen, hmt]
    · simp [hpx, hdx, hsrc, hdst, hlen, hmt, hbytes]
  have hhl : hardlink_to (fs.unlink src) src dst =
      .ok ((fs.unlink src).setFile src j) := by
    unfold hardlink_to
    have hd2 : (fs.unlink src).files dst = some j := by
      simp [FS.unlink, hne, hdst]
    simp only [hd2]
    have c1 : (fs.unlink src).pathExists src = false := by
      simp [FS.pathExists, FS.isFile, FS.unlink, hsdir]
    simp only [c1, Bool.false_eq_true, if_false]
    rw [if_neg, if_neg]
    · simp [FS.unlink, hdev]
    · simp [FS.unlink, hpdir]
  unfold smartlink
  simp only [hpx, hdx, Bool.not_true, Bool.false_eq_true, if_false, if_true,
    hcmp, hhl, Bool.not_false]

/-- C3: dedup-by-hardlink with the destination inode canonical.  Place two
distinct same-device sources with byte-identical content at one fresh
destination: the first call links the destination to the first source's
inode; the second call verifies the contents, unlinks its source and
re-links it onto the destination (never the reverse), so afterwards all
three paths name the destination's inode, the destination's own inode
mapping is untouched by the second placement, and every other directory
entry — in particular any pre-existing hardlink of the destination's
inode — is unchanged. -/
theorem smartadd_dedup_preserves_canonical (fs : FS) (src1 src2 dst : FPath)
    (i1 i2 : Nat)
    (h1 : fs.files src1 = some i1) (h2 : fs.files src2 = some i2)
    (hsrcne : src1 ≠ src2)
    (hbytes : (fs.inodes i1).bytes = (fs.inodes i2).bytes)
    (hdstF : fs.files dst = none) (hdstD : fs.dirs dst = false)
    (hdstnil : dst ≠ [])
    (hosf1 : on_same_filesystem fs src1 dst = .ok true)
    (hdev1 : fs.dirDev dst.dropLast = (fs.inodes i1).dev)
    (hnof : ∀ k, k ≤ dst.dropLast.length → fs.isFile (dst.dropLast.take k) = false)
    (hdev2 : (fs.inodes i2).dev = (fs.inodes i1).dev)
    (hs2dir : fs.dirs src2.dropLast = true)
    (hs2notdir : fs.dirs src2 = false)
    (hdev3 : fs.dirDev src2.dropLast = (fs.inodes i1).dev) :
    ∃ fs1 fs2 r2,
      smartadd fs src1 dst false = (.ok none, fs1) ∧
      smartadd fs1 src2 dst false = (.ok r2, fs2) ∧
      fs2.files src1 = some i1 ∧ fs2.files src2 = some i1 ∧
      fs2.files dst = some i1 ∧ fs2.files dst = fs1.files dst ∧
      (∀ p, p ≠ src2 → fs2.files p = fs1.files p) := by
  have hdstpre : List.isPrefixOf dst (List.dropLast dst) = false := by
    rcases hb : List.isPrefixOf dst (List.dropLast dst) with _ | _
    · rfl
    · exfalso
      have hp := (List.isPrefixOf_iff_prefix).mp hb
      have hl := hp.length_le
      have hpos : 0 < dst.length := List.length_pos.mpr hdstnil
      rw [List.length_dropLast] at hl
      omega
  have hne1 : src1 ≠ dst := by
    intro he
    rw [he, hdstF] at h1
    simp at h1
  have hne2 : src2 ≠ dst := by
    intro he
    rw [he, hdstF] at h2
    simp at h2
  have hdx : fs.pathExists dst = false := by
    simp [FS.pathExists, FS.isFile, hdstF, hdstD]
  have hslf := smartlink_fresh fs src1 dst i1 h1 hdstF hdstD hdstpre hnof hdev1
  have hadd1 : smartadd fs src1 dst false =
      (.ok none, FS.setFile
        { fs with dirs := fun q => fs.dirs q || q.isPrefixOf dst.dropLast }
        dst i1) := by
    unfold smartadd
    simp only [hdx, Bool.false_eq_true, if_false, hosf1, hslf]
  have hf1src1 : (FS.setFile
      { fs with dirs := fun q => fs.dirs q || q.isPrefixOf dst.dropLast }
      dst i1).files src1 = some i1 := by
    simp [FS.setFile, hne1, h1]
  have hf1src2 : (FS.setFile
      { fs with dirs := fun q => fs.dirs q || q.isPrefixOf dst.dropLast }
      dst i1).files src2 = some i2 := by
    simp [FS.setFile, hne2, h2]
  have hf1dst : (FS.setFile
      { fs with dirs := fun q => fs.dirs q || q.isPrefixOf dst.dropLast }
      dst i1).files dst = some i1 := by
    simp [FS.setFile]
  have hex : (FS.setFile
      { fs with dirs := fun q => fs.dirs q || q.isPrefixOf dst.dropLast }
      dst i1).pathExists dst = true := by
    simp [FS.pathExists, FS.isFile, hf1dst]
  by_cases hii : i2 = i1
  · have hsf : samefile (FS.setFile
        { fs with dirs := fun q => fs.dirs q || q.isPrefixOf dst.dropLast }
        dst i1) src2 dst = .ok true := by
      unfold samefile
      rw [hf1src2, hf1dst, hii]
      simp
    have hadd2 : smartadd (FS.setFile
        { fs with dirs := fun q => fs.dirs q || q.isPrefixOf dst.dropLast }
        dst i1) src2 dst false =
        (.ok (some true), FS.setFile
          { fs with dirs := fun q => fs.dirs q || q.isPrefixOf dst.dropLast }
          dst i1) := by
      unfold smartadd
      simp only [hex, if_true, hsf]
    refine ⟨_, _, some true, hadd1, hadd2, hf1src1, ?_, hf1dst, rfl,
      fun p _ => rfl⟩
    rw [hf1src2, hii]
  · have hnpre2 : List.isPrefixOf src2 (List.dropLast dst) = false := by
      rcases hb : List.isPrefixOf src2 (List.dropLast dst) with _ | _
      · rfl
      · exfalso
        have hp := (List.isPrefixOf_iff_prefix).mp hb
        have htake := List.prefix_iff_eq_take.mp hp
        have hlen := hp.length_le
        have hfile := hnof src2.length (by omega)
        rw [← htake] at hfile
        rw [FS.isFile, h2] at hfile
        simp at hfile
    have hsf : samefile (FS.setFile
        { fs with dirs := fun q => fs.dirs q || q.isPrefixOf dst.dropLast }
        dst i1) src2 dst = .ok false := by
      unfold samefile
      rw [hf1src2, hf1dst]
      simp [hii]
    have hosf2 : on_same_filesystem (FS.setFile
        { fs with dirs := fun q => fs.dirs q || q.isPrefixOf dst.dropLast }
        dst i1) src2 dst = .ok true := by
      unfold on_same_filesystem
      have hdv : (FS.setFile
          { fs with dirs := fun q => fs.dirs q || q.isPrefixOf dst.dropLast }
          dst i1).devOf src2 = some (fs.inodes i2).dev := by
        unfold FS.devOf
        rw [hf1src2]
        rfl
      have hdv2 : (FS.setFile
          { fs with dirs := fun q => fs.dirs q || q.isPrefixOf dst.dropLast }
          dst i1).devOf dst = some (fs.inodes i1).dev := by
        unfold FS.devOf
        rw [hf1dst]
        rfl
      simp only [hdv, hdv2, hex, if_true, hdev2]
      simp
    have hso := smartlink_onto_existing (FS.setFile
        { fs with dirs := fun q => fs.dirs q || q.isPrefixOf dst.dropLast }
        dst i1) src2 dst i2 i1 hf1src2 hf1dst (fun he => hne2 he.symm) hbytes.symm
      (by simp [FS.setFile, hs2dir]) (by simp [FS.setFile, hs2notdir, hnpre2])
      hdev3
    have hadd2 : smartadd (FS.setFile
        { fs with dirs := fun q => fs.dirs q || q.isPrefixOf dst.dropLast }
        dst i1) src2 dst false =
        (.ok none, ((FS.setFile
          { fs with dirs := fun q => fs.dirs q || q.isPrefixOf dst.dropLast }
          dst i1).unlink src2).setFile src2 i1) := by
      unfold smartadd
      simp only [hex, if_true, hsf, hosf2, hso]
    refine ⟨_, _, none, hadd1, hadd2, ?_, ?_, ?_, ?_, ?_⟩
    · simp [FS.setFile, FS.unlink, hsrcne, hne1, h1]
    · simp [FS.setFile]
    · simp [FS.setFile, FS.unlink, Ne.symm hne2]
    · simp [FS.setFile, FS.unlink, Ne.symm hne2]
    · intro p hp
      simp [FS.setFile, FS.unlink, hp]

/-- C3 witness: on `fsDupPair`, placing `s1` then `s2` at the fresh
destination `d` converges all three paths onto inode 0 with `d`'s mapping
preserved by the second placement. -/
theorem smartadd_dedup_preserves_canonical_witness :
    ∃ fs1 fs2 r2,
      smartadd fsDupPair ["s1"] ["d"] false = (.ok none, fs1) ∧
      smartadd fs1 ["s2"] ["d"] false = (.ok r2, fs2) ∧
      fs2.files ["s1"] = some 0 ∧ fs2.files ["s2"] = some 0 ∧
      fs2.files ["d"] = some 0 ∧ fs2.files ["d"] = fs1.files ["d"] ∧
      (∀ p, p ≠ ["s2"] → fs2.files p = fs1.files p) := by
  have hosf1 : on_same_filesystem fsDupPair ["s1"] ["d"] = .ok true := by
    have hanc : findExistingAncestor fsDupPair (List.dropLast ["d"]) = [] := by
      simp [findExistingAncestor]
    unfold on_same_filesystem
    rw [hanc]
    rfl
  exact smartadd_dedup_preserves_canonical fsDupPair ["s1"] ["s2"] ["d"] 0 1
    rfl rfl (by decide) rfl rfl rfl (by decide) hosf1 rfl
    (by
      intro k hk
      simp [FS.isFile, fsDupPair])
    rfl rfl rfl rfl

/-- C5: the ingestion entry point `get_or_create_with_filepath_nfo` calls
`analyze_file(filepath, hash_progress_callback=...)`, but `analyze_file`'s
signature has only the positional-or-keyword parameter `filepath` and no
`**kwargs`, so the keyword never binds: every ingestion call raises
`TypeError` before hashing starts, whatever the callback value (including
the default `None`).  A keyword-free call binds fine, and `hash_file`
likewise rejects the `progress_callback` keyword its tests pass. -/
theorem analyze_file_rejects_progress_kwarg :
    pythonCallOk analyze_file_sig 1 ingest_analyze_call_kwargs = false ∧
    pythonCallOk analyze_file_sig 1 [] = true ∧
    pythonCallOk hash_file_sig 1 ["progress_callback"] = false := by
  refine ⟨?_, ?_, ?_⟩ <;> rfl

theorem strFindAux_mvhd_replicate (n : Nat) :
    ∀ i : Nat, strFindAux mvhdTag (List.replicate n 0) i = -1 := by
  induction n with
  | zero => intro i; rfl
  | succ n ih =>
    intro i
    rw [List.replicate_succ]
    unfold strFindAux
    rw [if_neg]
    · exact ih (i + 1)
    · simp [mvhdTag, List.isPrefixOf]

theorem strFindAux_mvhd_after_replicate (n : Nat) :
    ∀ i : Nat, strFindAux mvhdTag (List.replicate n 0 ++ mvhdTag) i = (i : Int) + n := by
  induction n with
  | zero =>
    intro i
    simp [mvhdTag, strFindAux, List.isPrefixOf]
  | succ n ih =>
    intro i
    rw [List.replicate_succ, List.cons_append]
    unfold strFindAux
    rw [if_neg]
    · rw [ih (i + 1)]
      push_cast
      ring
    · simp [mvhdTag, List.isPrefixOf]

theorem find_mvhd_loop_step (rest buffer : List Nat) (position : Nat)
    (c : List Nat) (hc : rest.take AVIF_SEARCH_BUFFER_SIZE = c) (hne : c ≠ []) :
    find_mvhd_loop rest buffer position =
      (if strFind (buffer ++ c) mvhdTag != -1 then
        (position : Int) + strFind (buffer ++ c) mvhdTag
       else
        find_mvhd_loop (rest.drop AVIF_SEARCH_BUFFER_SIZE)
          (if 8 ≤ (buffer ++ c).length then
            (buffer ++ c).drop ((buffer ++ c).length - 8)
           else buffer ++ c)
          (position + c.length)) := by
  rw [find_mvhd_loop]
  rw [dif_neg (by rw [hc]; exact hne)]
  simp only [hc]

/-- C7: the sliding-window search misreports every occurrence past the
first 8 KiB window.  On a file whose first (and only) `mvhd` tag sits at
byte offset 8192, `bytes.find` over the whole file gives 8192, but
`_find_mvhd_box_streaming` returns 8200: from the second window on it
prepends the 8 carried-over bytes to the search data yet still adds the
found offset to a `position` that counts whole chunks, so the parser then
seeks 8 bytes past the tag and reads its version/timescale/duration fields
from the wrong place. -/
theorem find_mvhd_box_streaming_offset_bug :
    strFind mvhdPastWindow mvhdTag = 8192 ∧
    find_mvhd_box_streaming mvhdPastWindow = 8200 := by
  have htake1 : List.take AVIF_SEARCH_BUFFER_SIZE mvhdPastWindow =
      List.replicate 8192 0 := by
    unfold mvhdPastWindow AVIF_SEARCH_BUFFER_SIZE
    exact List.take_left' (List.length_replicate 8192 0)
  have hdrop1 : List.drop AVIF_SEARCH_BUFFER_SIZE mvhdPastWindow = mvhdTag := by
    unfold mvhdPastWindow AVIF_SEARCH_BUFFER_SIZE
    exact List.drop_left' (List.length_replicate 8192 0)
  have hfind1 : strFind (List.replicate 8192 (0 : Nat)) mvhdTag = -1 :=
    strFindAux_mvhd_replicate 8192 0
  have hbuf : List.drop ((List.replicate 8192 (0 : Nat)).length - 8)
      (List.replicate 8192 (0 : Nat)) = List.replicate 8 0 := by
    rw [List.drop_replicate, List.length_replicate]
  have htake2 : List.take AVIF_SEARCH_BUFFER_SIZE mvhdTag = mvhdTag := by
    rw [List.take_of_length_le]
    unfold mvhdTag AVIF_SEARCH_BUFFER_SIZE
    simp
  have hfind2 : strFind (List.replicate 8 (0 : Nat) ++ mvhdTag) mvhdTag = 8 := by
    unfold strFind
    rw [strFindAux_mvhd_after_replicate 8 0]
    simp
  constructor
  · unfold mvhdPastWindow strFind
    rw [strFindAux_mvhd_after_replicate 8192 0]
    norm_num
  · have hne1 : List.replicate 8192 (0 : Nat) ≠ [] := by
      intro hco
      have hlen := congrArg List.length hco
      rw [List.length_replicate] at hlen
      simp at hlen
    have hne2 : mvhdTag ≠ [] := by
      unfold mvhdTag
      intro hco
      cases hco
    have hbuf2 : List.drop (8192 - 8) (List.replicate 8192 (0 : Nat)) =
        List.replicate 8 0 := by
      rw [List.drop_replicate]
    unfold find_mvhd_box_streaming
    rw [find_mvhd_loop_step mvhdPastWindow [] 0 (List.replicate 8192 0) htake1 hne1]
    rw [List.nil_append]
    rw [hfind1]
    rw [if_neg (by norm_num)]
    rw [hdrop1]
    rw [List.length_replicate]
    rw [if_pos (by omega)]
    rw [hbuf2]
    rw [find_mvhd_loop_step mvhdTag (List.replicate 8 0) (0 + 8192) mvhdTag
      htake2 hne2]
    rw [hfind2]
    rw [if_pos (by norm_num)]
    norm_num

theorem bsSeek_data (s : ByteStream) (n : Nat) : (bsSeek s n).data = s.data :=
  rfl

theorem bsSeek_pos (s : ByteStream) (n : Nat) : (bsSeek s n).pos = s.pos + n :=
  rfl

theorem padAlign_data (s : ByteStream) (k : Nat) : (padAlign s k).data = s.data := by
  unfold padAlign bsSeek
  split <;> rfl

theorem padAlign_pos_ge (s : ByteStream) (k : Nat) : s.pos ≤ (padAlign s k).pos := by
  unfold padAlign bsSeek
  split <;> simp

theorem parse_anmf_data (s : ByteStream) (c : Nat) :
    (parse_anmf_chunk_duration s c).2.data = s.data := by
  unfold parse_anmf_chunk_duration bsRead bsSeek
  dsimp only
  split_ifs <;> rfl


theorem bsSeek_measure (s : ByteStream) (k : Nat) :
    (bsSeek s k).data.length - (bsSeek s k).pos ≤ s.data.length - s.pos := by
  dsimp only [bsSeek]
  omega

theorem padAlign_measure (s : ByteStream) (k : Nat) :
    (padAlign s k).data.length - (padAlign s k).pos ≤ s.data.length - s.pos := by
  unfold padAlign bsSeek
  split <;> (try dsimp only) <;> omega

theorem parse_anmf_measure (s s2 : ByteStream) (c : Nat) (od : Option Nat)
    (h : parse_anmf_chunk_duration s c = (od, s2)) :
    s2.data.length - s2.pos ≤ s.data.length - s.pos := by
  unfold parse_anmf_chunk_duration bsRead bsSeek at h
  dsimp only at h
  split_ifs at h <;>
    obtain ⟨-, h2⟩ := Prod.mk.injEq .. ▸ h <;>
    subst h2 <;>
    (try dsimp only) <;>
    simp only [List.length_take, List.length_drop] <;>
    omega

theorem webp_chunk_loop_pos_aux :
    ∀ (n : Nat) (s : ByteStream) (tot cnt : Nat) (ha : Bool) (d : Nat),
      s.data.length - s.pos ≤ n →
      webp_chunk_loop s tot cnt ha = some d → 0 < d := by
  intro n
  induction n with
  | zero =>
    intro s tot cnt ha d hle h
    rw [webp_chunk_loop] at h
    dsimp only [bsRead] at h
    rw [dif_pos (by
      simp only [List.length_take, List.length_drop, WEBP_CHUNK_HEADER_SIZE]
      omega)] at h
    split_ifs at h with hc
    simp only [Option.some.injEq] at h
    subst h
    simp only [Bool.and_eq_true, decide_eq_true_eq] at hc
    omega
  | succ n ih =>
    intro s tot cnt ha d hle h
    rw [webp_chunk_loop] at h
    dsimp only [bsRead] at h
    by_cases hlt : (List.take WEBP_CHUNK_HEADER_SIZE (List.drop s.pos s.data)).length <
        WEBP_CHUNK_HEADER_SIZE
    · rw [dif_pos hlt] at h
      split_ifs at h with hc
      simp only [Option.some.injEq] at h
      subst h
      simp only [Bool.and_eq_true, decide_eq_true_eq] at hc
      omega
    · rw [dif_neg hlt] at h
      have hmeas : s.data.length -
          (s.pos + (List.take WEBP_CHUNK_HEADER_SIZE (List.drop s.pos s.data)).length) ≤ n := by
        simp only [List.length_take, List.length_drop, WEBP_CHUNK_HEADER_SIZE] at hlt ⊢
        omega
      split_ifs at h
      · refine ih _ _ _ _ _ (le_trans (padAlign_measure _ _)
          (le_trans (bsSeek_measure _ _) ?_)) h
        dsimp only
        exact hmeas
      · split at h
        · rename_i d2 s2 hpr
          have hpe := parse_anmf_measure _ _ _ _ hpr
          refine ih _ _ _ _ _ (le_trans (padAlign_measure _ _)
            (le_trans hpe ?_)) h
          dsimp only
          exact hmeas
        · rename_i s2 hpr
          have hpe := parse_anmf_measure _ _ _ _ hpr
          refine ih _ _ _ _ _ (le_trans (padAlign_measure _ _)
            (le_trans (bsSeek_measure _ _) (le_trans hpe ?_))) h
          dsimp only
          exact hmeas
      · refine ih _ _ _ _ _ (le_trans (padAlign_measure _ _)
          (le_trans (bsSeek_measure _ _) ?_)) h
        dsimp only
        exact hmeas

theorem leBytes_le32Bytes (n : Nat) (h : n < 2 ^ 32) : leBytes (le32Bytes n) = n := by
  unfold leBytes le32Bytes
  simp only [List.foldr_cons, List.foldr_nil]
  omega

theorem parse_anmf_serialized (pre payload tail : List Nat)
    (h15 : 15 ≤ payload.length) :
    parse_anmf_chunk_duration
        { data := pre ++ (payload ++ tail), pos := pre.length } payload.length =
      (some (anmfPayloadDuration payload),
       { data := pre ++ (payload ++ tail), pos := pre.length + payload.length }) := by
  unfold parse_anmf_chunk_duration bsRead
  simp only [ANMF_MIN_DATA_SIZE]
  try dsimp only
  rw [List.drop_left]
  rw [List.take_append_of_le_length (Nat.min_le_left payload.length 16)]
  have hlen : (List.take (min payload.length 16) payload).length =
      min payload.length 16 := by
    rw [List.length_take]
    omega
  rw [hlen]
  rw [if_pos (by omega)]
  refine Prod.ext ?_ ?_
  · try dsimp only
    have hx : List.take 3 (List.drop 12 (List.take (min payload.length 16) payload)) =
        List.take 3 (List.drop 12 payload) := by
      rw [List.drop_take, List.take_take]
      congr 1
      omega
    rw [hx]
    rfl
  · try dsimp only
    split_ifs with hrem <;> (try simp only [bsSeek]) <;> congr 1 <;> omega

theorem webp_chunk_loop_cons (pre rest : List Nat) (c : WebpChunk)
    (tot cnt : Nat) (ha : Bool) (hwf : WellFormedChunk c) :
    webp_chunk_loop { data := pre ++ (serializeChunk c ++ rest), pos := pre.length }
        tot cnt ha =
      webp_chunk_loop
        { data := pre ++ (serializeChunk c ++ rest),
          pos := pre.length + (serializeChunk c).length }
        (tot + chunkDur c) (cnt + chunkFrames c) (chunkHa c ha) := by
  have hf4 : c.fourcc.length = 4 := by
    cases c with
    | anim p => rfl
    | anmf p => rfl
    | other f p => exact hwf.1
  have hn32 : c.payload.length < 2 ^ 32 := by
    cases c with
    | anim p => exact hwf
    | anmf p => exact hwf.2
    | other f p => exact hwf.2.2.2
  have hser : serializeChunk c ++ rest =
      (c.fourcc ++ le32Bytes c.payload.length) ++
        ((c.payload ++ (if c.payload.length % 2 == 1 then [0] else [])) ++ rest) := by
    unfold serializeChunk
    simp [List.append_assoc]
  have hhdr8 : (c.fourcc ++ le32Bytes c.payload.length).length =
      WEBP_CHUNK_HEADER_SIZE := by
    simp [le32Bytes, hf4, WEBP_CHUNK_HEADER_SIZE]
  rw [webp_chunk_loop]
  dsimp only [bsRead]
  rw [List.drop_left]
  rw [hser]
  rw [List.take_left' hhdr8]
  rw [dif_neg (by rw [hhdr8]; decide)]
  rw [List.take_left' hf4, List.drop_left' hf4]
  rw [leBytes_le32Bytes _ hn32]
  rw [hhdr8]
  cases c with
  | anim p =>
    dsimp only [WebpChunk.fourcc, WebpChunk.payload, chunkDur, chunkFrames, chunkHa] at *
    rw [if_pos (by decide : (ANIM_FOURCC == ANIM_FOURCC) = true)]
    have hst : padAlign (bsSeek
        { data := pre ++ (ANIM_FOURCC ++ le32Bytes p.length ++
            ((p ++ if p.length % 2 == 1 then [0] else []) ++ rest)),
          pos := pre.length + WEBP_CHUNK_HEADER_SIZE } p.length) p.length =
        { data := pre ++ (ANIM_FOURCC ++ le32Bytes p.length ++
            ((p ++ if p.length % 2 == 1 then [0] else []) ++ rest)),
          pos := pre.length + (serializeChunk (.anim p)).length } := by
      unfold padAlign bsSeek serializeChunk
      dsimp only [WebpChunk.fourcc, WebpChunk.payload]
      split_ifs with hodd <;> congr 1 <;>
        simp [le32Bytes, ANIM_FOURCC, WEBP_CHUNK_HEADER_SIZE, List.length_append, hodd] <;>
        omega
    rw [hst]
    simp only [Nat.add_zero]
  | anmf p =>
    dsimp only [WebpChunk.fourcc, WebpChunk.payload, chunkDur, chunkFrames, chunkHa] at *
    rw [if_neg (by decide : ¬ (ANMF_FOURCC == ANIM_FOURCC) = true)]
    rw [if_pos (by decide : (ANMF_FOURCC == ANMF_FOURCC) = true)]
    have hre : ByteStream.mk
        (pre ++ (ANMF_FOURCC ++ le32Bytes p.length ++
          ((p ++ if p.length % 2 == 1 then [0] else []) ++ rest)))
        (pre.length + WEBP_CHUNK_HEADER_SIZE) =
        ByteStream.mk
          ((pre ++ (ANMF_FOURCC ++ le32Bytes p.length)) ++
            (p ++ ((if p.length % 2 == 1 then [0] else []) ++ rest)))
          (pre ++ (ANMF_FOURCC ++ le32Bytes p.length)).length := by
      congr 1 <;>
        simp [le32Bytes, ANMF_FOURCC, WEBP_CHUNK_HEADER_SIZE, List.length_append,
          List.append_assoc]
    have hpe := parse_anmf_serialized (pre ++ (ANMF_FOURCC ++ le32Bytes p.length)) p
      ((if p.length % 2 == 1 then [0] else []) ++ rest) hwf.1
    rw [hre]
    split
    case _ d s2 hpr2 =>
      rw [hpe] at hpr2
      simp only [Prod.mk.injEq, Option.some.injEq] at hpr2
      obtain ⟨hd, hs⟩ := hpr2
      subst hd
      subst hs
      have hst : padAlign
          { data := (pre ++ (ANMF_FOURCC ++ le32Bytes p.length)) ++
              (p ++ ((if p.length % 2 == 1 then [0] else []) ++ rest)),
            pos := (pre ++ (ANMF_FOURCC ++ le32Bytes p.length)).length + p.length }
            p.length =
          { data := pre ++ (ANMF_FOURCC ++ le32Bytes p.length ++
              ((p ++ if p.length % 2 == 1 then [0] else []) ++ rest)),
            pos := pre.length + (serializeChunk (.anmf p)).length } := by
        unfold padAlign bsSeek serializeChunk
        dsimp only [WebpChunk.fourcc, WebpChunk.payload]
        split_ifs with hodd <;> congr 1 <;>
          simp [le32Bytes, ANMF_FOURCC, List.length_append, List.append_assoc, hodd] <;>
          omega
      rw [hst]
    case _ s2 hpr2 =>
      rw [hpe] at hpr2
      simp at hpr2
  | other f p =>
    dsimp only [WebpChunk.fourcc, WebpChunk.payload, chunkDur, chunkFrames, chunkHa] at *
    rw [if_neg (by simp only [beq_iff_eq]; exact hwf.2.1)]
    rw [if_neg (by simp only [beq_iff_eq]; exact hwf.2.2.1)]
    have hst : padAlign (bsSeek
        { data := pre ++ (f ++ le32Bytes p.length ++
            ((p ++ if p.length % 2 == 1 then [0] else []) ++ rest)),
          pos := pre.length + WEBP_CHUNK_HEADER_SIZE } p.length) p.length =
        { data := pre ++ (f ++ le32Bytes p.length ++
            ((p ++ if p.length % 2 == 1 then [0] else []) ++ rest)),
          pos := pre.length + (serializeChunk (.other f p)).length } := by
      unfold padAlign bsSeek serializeChunk
      dsimp only [WebpChunk.fourcc, WebpChunk.payload]
      split_ifs with hodd <;> congr 1 <;>
        simp [le32Bytes, WEBP_CHUNK_HEADER_SIZE, List.length_append, hwf.1, hodd] <;>
        omega
    rw [hst]
    simp only [Nat.add_zero]

theorem webp_loop_spec :
    ∀ (cs : List WebpChunk) (pre : List Nat) (tot cnt : Nat) (ha : Bool),
      (∀ c ∈ cs, WellFormedChunk c) →
      webp_chunk_loop { data := pre ++ (cs.map serializeChunk).flatten, pos := pre.length }
          tot cnt ha =
        if cnt + countAnmf cs > 1 && tot + sumAnmfDurations cs > 0
        then some (tot + sumAnmfDurations cs) else none := by
  intro cs
  induction cs with
  | nil =>
    intro pre tot cnt ha _
    rw [webp_chunk_loop]
    dsimp only [bsRead]
    rw [List.map_nil, List.flatten_nil, List.append_nil, List.drop_length]
    rw [dif_pos (by decide)]
    dsimp only [countAnmf, sumAnmfDurations]
    simp only [Nat.add_zero]
  | cons c cs ih =>
    intro pre tot cnt ha hwf
    rw [List.map_cons, List.flatten_cons]
    rw [webp_chunk_loop_cons pre _ c tot cnt ha (hwf c (by simp))]
    have hre : ByteStream.mk
        (pre ++ (serializeChunk c ++ (cs.map serializeChunk).flatten))
        (pre.length + (serializeChunk c).length) =
        ByteStream.mk
          ((pre ++ serializeChunk c) ++ (cs.map serializeChunk).flatten)
          (pre ++ serializeChunk c).length := by
      congr 1 <;> simp [List.append_assoc, List.length_append]
    rw [hre]
    rw [ih (pre ++ serializeChunk c) (tot + chunkDur c) (cnt + chunkFrames c)
      (chunkHa c ha) (fun c hc => hwf c (by simp [hc]))]
    cases c with
    | anim p =>
      dsimp only [chunkDur, chunkFrames, countAnmf, sumAnmfDurations]
      simp only [Nat.add_zero]
    | anmf p =>
      dsimp only [chunkDur, chunkFrames, countAnmf, sumAnmfDurations]
      have e1 : cnt + 1 + countAnmf cs = cnt + (1 + countAnmf cs) := by omega
      have e2 : tot + anmfPayloadDuration p + sumAnmfDurations cs =
          tot + (anmfPayloadDuration p + sumAnmfDurations cs) := by omega
      rw [e1, e2]
    | other f p =>
      dsimp only [chunkDur, chunkFrames, countAnmf, sumAnmfDurations]
      simp only [Nat.add_zero]

theorem parse_webp_duration_eval (sz : List Nat) (cs : List WebpChunk)
    (hsz : sz.length = 4) (hwf : ∀ c ∈ cs, WellFormedChunk c) :
    parse_webp_duration (serializeWebp sz cs) =
      if 1 < countAnmf cs ∧ 0 < sumAnmfDurations cs
      then some (sumAnmfDurations cs) else none := by
  obtain ⟨a, b, c', d, hsznil⟩ : ∃ a b c' d, sz = [a, b, c', d] := by
    rcases sz with _ | ⟨a, _ | ⟨b, _ | ⟨c', _ | ⟨d, _ | ⟨e, t⟩⟩⟩⟩⟩ <;> simp at hsz
    exact ⟨a, b, c', d, rfl⟩
  subst hsznil
  have hval : validate_webp_headers
      { data := serializeWebp [a, b, c', d] cs, pos := 0 } =
      (true, { data := serializeWebp [a, b, c', d] cs, pos := 12 }) := by
    unfold validate_webp_headers serializeWebp bsRead bsSeek RIFF_SIGNATURE WEBP_SIGNATURE
    simp [List.take, List.drop]
  unfold parse_webp_duration parse_webp_duration_streaming
  rw [hval]
  dsimp only
  simp only [Bool.not_true]
  rw [if_neg (by decide)]
  have hre : ByteStream.mk (serializeWebp [a, b, c', d] cs) 12 =
      ByteStream.mk
        ((RIFF_SIGNATURE ++ [a, b, c', d] ++ WEBP_SIGNATURE) ++
          (cs.map serializeChunk).flatten)
        (RIFF_SIGNATURE ++ [a, b, c', d] ++ WEBP_SIGNATURE).length := by
    congr 1 <;> simp [serializeWebp, RIFF_SIGNATURE, WEBP_SIGNATURE]
  rw [hre]
  rw [webp_loop_spec cs (RIFF_SIGNATURE ++ [a, b, c', d] ++ WEBP_SIGNATURE) 0 0 false hwf]
  simp only [Nat.zero_add, gt_iff_lt, Bool.and_eq_true, decide_eq_true_eq]

/-- C8: on a well-formed serialized RIFF/WEBP file whose chunks the scanner
can walk, `parse_webp_duration` returns the sum over all `ANMF` chunks of
the 24-bit little-endian duration at payload offsets 12-14 exactly when
strictly more than one frame was observed and that sum is positive; in
particular a file with exactly one `ANMF` chunk yields no duration, and
non-`ANIM`/`ANMF` chunks never affect the total. -/
theorem webp_duration_sum_iff (sz : List Nat) (cs : List WebpChunk)
    (hsz : sz.length = 4) (hwf : ∀ c ∈ cs, WellFormedChunk c) :
    (parse_webp_duration (serializeWebp sz cs) = some (sumAnmfDurations cs) ↔
      1 < countAnmf cs ∧ 0 < sumAnmfDurations cs) ∧
    (countAnmf cs = 1 → parse_webp_duration (serializeWebp sz cs) = none) := by
  rw [parse_webp_duration_eval sz cs hsz hwf]
  constructor
  · split_ifs with hc
    · exact ⟨fun _ => hc, fun _ => rfl⟩
    · constructor
      · intro h
        exact absurd h (by simp)
      · intro h
        exact absurd h hc
  · intro h1
    split_ifs with hc
    · have := hc.1
      omega
    · rfl

theorem webp_duration_sum_iff_witness :
    parse_webp_duration webpSample = some (sumAnmfDurations webpChunksSample) ∧
    1 < countAnmf webpChunksSample ∧ 0 < sumAnmfDurations webpChunksSample :=
  ⟨((webp_duration_sum_iff [0, 0, 0, 0] webpChunksSample (by decide)
      (by decide)).1.mpr (by decide)),
   by decide⟩

theorem avifFinish_pos (t du d : Nat) (h : avifFinish t du = some d) : 0 < d := by
  unfold avifFinish at h
  try dsimp only at h
  split_ifs at h with h1 h2
  simp only [Option.some.injEq] at h
  omega

theorem parse_avif_duration_pos (data : List Nat) (d : Nat)
    (h : parse_avif_duration data = some d) : 0 < d := by
  unfold parse_avif_duration parse_avif_duration_streaming at h
  try dsimp only at h
  split_ifs at h
  all_goals exact avifFinish_pos _ _ _ h

theorem parse_webp_duration_pos (data : List Nat) (d : Nat)
    (h : parse_webp_duration data = some d) : 0 < d := by
  unfold parse_webp_duration parse_webp_duration_streaming at h
  try dsimp only at h
  split_ifs at h
  exact webp_chunk_loop_pos_aux _ _ 0 0 false d (Nat.le_refl _) h

/-- C10: whenever `parse_avif_duration` or `parse_webp_duration` returns a
duration rather than `none`, that duration is strictly positive — a
computed total of zero or less milliseconds becomes `none`, so callers may
treat any returned value as a positive animation duration. -/
theorem parsed_durations_positive (data : List Nat) (d : Nat) :
    (parse_avif_duration data = some d → 0 < d) ∧
    (parse_webp_duration data = some d → 0 < d) :=
  ⟨parse_avif_duration_pos data d, parse_webp_duration_pos data d⟩

theorem parsed_durations_positive_witness :
    (parse_avif_duration avifSample = some 2000 ∧ 0 < 2000) ∧
    (parse_webp_duration webpSample = some 200 ∧ 0 < 200) := by
  have h0 : find_mvhd_box_streaming avifSample = 0 := by
    unfold find_mvhd_box_streaming
    rw [find_mvhd_loop_step avifSample [] 0 avifSample (by decide) (by decide)]
    rw [List.nil_append]
    have hf : strFind avifSample mvhdTag = 0 := by decide
    rw [hf]
    rw [if_pos (by decide)]
    norm_num
  have havif : parse_avif_duration avifSample = some 2000 := by
    unfold parse_avif_duration parse_avif_duration_streaming
    rw [h0]
    rfl
  have hwebp : parse_webp_duration webpSample = some 200 := by
    have h := parse_webp_duration_eval [0, 0, 0, 0] webpChunksSample
      (by decide) (by decide)
    rw [show webpSample = serializeWebp [0, 0, 0, 0] webpChunksSample from rfl]
    rw [h]
    decide
  exact ⟨⟨havif, (parsed_durations_positive avifSample 2000).1 havif⟩,
    ⟨hwebp, (parsed_durations_positive webpSample 200).2 hwebp⟩⟩

/-- C6: the classifier invariant.  A non-corrupt image result carries
positive width and height; a non-corrupt video result carries a stream with
present, positive width, height and frame rate, and a present, positive
duration; a non-corrupt audio result carries a present, positive duration.
A corrupt result always carries the empty metadata dict, a missing or
non-positive required field forces the corrupt empty result, and the router
only ever hands back one of the three extractors' results or the benign
empty non-corrupt default — it re-raises nothing. -/
theorem classifier_invariant (ie : ImageEnv) (ve : VideoEnv) (ae : AudioEnv)
    (env : MediaEnv) (mime_type : String) :
    ((extract_image_metadata ie mime_type).2 = false →
      ∀ info, (extract_image_metadata ie mime_type).1.image = some info →
        0 < info.width ∧ 0 < info.height) ∧
    ((extract_image_metadata ie mime_type).2 = true →
      (extract_image_metadata ie mime_type).1 = MetaDict.empty) ∧
    (ie.opened = none → extract_image_metadata ie mime_type = (MetaDict.empty, true)) ∧
    (∀ img, ie.opened = some img → (img.width ≤ 0 ∨ img.height ≤ 0) →
      extract_image_metadata ie mime_type = (MetaDict.empty, true)) ∧
    ((extract_video_metadata ve).2 = false →
      ∃ v q, (extract_video_metadata ve).1.video = some v ∧
        (extract_video_metadata ve).1.duration = some q ∧ 0 < q ∧
        (∃ w, v.width = some w ∧ 0 < w) ∧ (∃ h, v.height = some h ∧ 0 < h) ∧
        (∃ fr, v.frame_rate = some fr ∧ 0 < fr)) ∧
    ((extract_video_metadata ve).2 = true →
      (extract_video_metadata ve).1 = MetaDict.empty) ∧
    (∀ probe v, ve.ffprobe = some probe → probe.video = some v →
      (v.width = none ∨ v.height = none ∨ v.frame_rate = none ∨
       (∃ w, v.width = some w ∧ w ≤ 0) ∨ (∃ h, v.height = some h ∧ h ≤ 0) ∨
       (∃ fr, v.frame_rate = some fr ∧ fr ≤ 0) ∨
       probe.duration = none ∨ (∃ q, probe.duration = some q ∧ q ≤ 0)) →
      extract_video_metadata ve = (MetaDict.empty, true)) ∧
    ((extract_audio_metadata ae).2 = false →
      ∃ q, (extract_audio_metadata ae).1.duration = some q ∧ 0 < q) ∧
    ((extract_audio_metadata ae).2 = true →
      (extract_audio_metadata ae).1 = MetaDict.empty) ∧
    (extract_metadata env mime_type = extract_image_metadata env.image mime_type ∨
     extract_metadata env mime_type = extract_video_metadata env.video ∨
     extract_metadata env mime_type = extract_audio_metadata env.audio ∨
     extract_metadata env mime_type = (MetaDict.empty, false)) := by
  refine ⟨?_, ?_, ?_, ?_, ?_, ?_, ?_, ?_, ?_, ?_⟩
  · intro h info hinfo
    unfold extract_image_metadata at h hinfo
    rcases hop : ie.opened with _ | img
    · simp only [hop] at h
      simp at h
    · simp only [hop] at h hinfo
      by_cases hdim : (decide (img.width > 0) && decide (img.height > 0)) = true
      · rw [if_pos hdim] at h hinfo
        rcases hth : ie.thumbhash with _ | th
        · simp only [hth] at h
          simp at h
        · simp only [hth] at hinfo
          simp only [Option.some.injEq] at hinfo
          subst hinfo
          simp only [Bool.and_eq_true, decide_eq_true_eq] at hdim
          exact ⟨hdim.1, hdim.2⟩
      · rw [if_neg hdim] at h
        simp at h
  · intro h
    unfold extract_image_metadata at h ⊢
    rcases hop : ie.opened with _ | img
    · simp only [hop]
    · simp only [hop] at h ⊢
      by_cases hdim : (decide (img.width > 0) && decide (img.height > 0)) = true
      · rw [if_pos hdim] at h ⊢
        rcases hth : ie.thumbhash with _ | th
        · simp only [hth]
        · simp only [hth] at h
          simp at h
      · rw [if_neg hdim]
  · intro hop
    unfold extract_image_metadata
    simp only [hop]
  · intro img hop hbad
    unfold extract_image_metadata
    simp only [hop]
    rw [if_neg (by
      simp only [Bool.and_eq_true, decide_eq_true_eq, not_and, not_lt]
      intro hw
      rcases hbad with hb | hb
      · exact absurd hw (by omega)
      · exact hb)]
  · intro h
    unfold extract_video_metadata at h ⊢
    rcases hfp : ve.ffprobe with _ | probe
    · simp only [hfp] at h
      simp at h
    · simp only [hfp] at h ⊢
      rcases hv : probe.video with _ | v
      · simp only [hv] at h
        simp at h
      · simp only [hv] at h ⊢
        by_cases h1 : (!videoDimsOk v) = true
        · rw [if_pos h1] at h
          simp at h
        · rw [if_neg h1] at h ⊢
          by_cases h2 : (!videoFrameRateOk v) = true
          · rw [if_pos h2] at h
            simp at h
          · rw [if_neg h2] at h ⊢
            by_cases h3 : (!probeDurationOk probe.duration) = true
            · rw [if_pos h3] at h
              simp at h
            · rw [if_neg h3]
              have h1' : videoDimsOk v = true := by
                revert h1
                cases videoDimsOk v <;> simp
              have h2' : videoFrameRateOk v = true := by
                revert h2
                cases videoFrameRateOk v <;> simp
              have h3' : probeDurationOk probe.duration = true := by
                revert h3
                cases probeDurationOk probe.duration <;> simp
              unfold videoDimsOk at h1'
              unfold videoFrameRateOk at h2'
              unfold probeDurationOk at h3'
              rcases hw : v.width with _ | w <;> rw [hw] at h1' <;>
                rcases hh : v.height with _ | hgt <;> rw [hh] at h1'
              · simp at h1'
              · simp at h1'
              · simp at h1'
              rcases hfr : v.frame_rate with _ | fr <;> rw [hfr] at h2'
              · simp at h2'
              rcases hd : probe.duration with _ | q <;> rw [hd] at h3'
              · simp at h3'
              simp only [Bool.and_eq_true, bne_iff_ne, ne_eq,
                decide_eq_true_eq] at h1' h2' h3'
              exact ⟨v, q, rfl, rfl, h3', ⟨w, hw, h1'.1.2⟩,
                ⟨hgt, hh, h1'.2⟩, ⟨fr, hfr, h2'.2⟩⟩
  · intro h
    unfold extract_video_metadata at h ⊢
    rcases hfp : ve.ffprobe with _ | probe
    · simp only [hfp]
    · simp only [hfp] at h ⊢
      rcases hv : probe.video with _ | v
      · simp only [hv]
      · simp only [hv] at h ⊢
        by_cases h1 : (!videoDimsOk v) = true
        · rw [if_pos h1]
        · rw [if_neg h1] at h ⊢
          by_cases h2 : (!videoFrameRateOk v) = true
          · rw [if_pos h2]
          · rw [if_neg h2] at h ⊢
            by_cases h3 : (!probeDurationOk probe.duration) = true
            · rw [if_pos h3]
            · rw [if_neg h3] at h
              simp at h
  · intro probe v hfp hv hbad
    unfold extract_video_metadata
    simp only [hfp, hv]
    by_cases h1 : (!videoDimsOk v) = true
    · rw [if_pos h1]
    · rw [if_neg h1]
      by_cases h2 : (!videoFrameRateOk v) = true
      · rw [if_pos h2]
      · rw [if_neg h2]
        by_cases h3 : (!probeDurationOk probe.duration) = true
        · rw [if_pos h3]
        · exfalso
          have h1' : videoDimsOk v = true := by
            revert h1
            cases videoDimsOk v <;> simp
          have h2' : videoFrameRateOk v = true := by
            revert h2
            cases videoFrameRateOk v <;> simp
          have h3' : probeDurationOk probe.duration = true := by
            revert h3
            cases probeDurationOk probe.duration <;> simp
          unfold videoDimsOk at h1'
          unfold videoFrameRateOk at h2'
          unfold probeDurationOk at h3'
          rcases hw : v.width with _ | w <;> rw [hw] at h1' <;>
            rcases hh : v.height with _ | hgt <;> rw [hh] at h1'
          · simp at h1'
          · simp at h1'
          · simp at h1'
          rcases hfr : v.frame_rate with _ | fr <;> rw [hfr] at h2'
          · simp at h2'
          rcases hd : probe.duration with _ | q <;> rw [hd] at h3'
          · simp at h3'
          simp only [Bool.and_eq_true, bne_iff_ne, ne_eq,
            decide_eq_true_eq] at h1' h2' h3'
          rcases hbad with hb | hb | hb | ⟨w2, hb, hble⟩ | ⟨h2x, hb, hble⟩ |
            ⟨fr2, hb, hble⟩ | hb | ⟨q2, hb, hble⟩
          · rw [hw] at hb
            exact absurd hb (by simp)
          · rw [hh] at hb
            exact absurd hb (by simp)
          · rw [hfr] at hb
            exact absurd hb (by simp)
          · rw [hw] at hb
            simp only [Option.some.injEq] at hb
            subst hb
            have := h1'.1.2
            omega
          · rw [hh] at hb
            simp only [Option.some.injEq] at hb
            subst hb
            have := h1'.2
            omega
          · rw [hfr] at hb
            simp only [Option.some.injEq] at hb
            subst hb
            have := h2'.2
            linarith
          · rw [hd] at hb
            exact absurd hb (by simp)
          · rw [hd] at hb
            simp only [Option.some.injEq] at hb
            subst hb
            linarith
  · intro h
    unfold extract_audio_metadata at h ⊢
    rcases hfp : ae.ffprobe with _ | probe
    · simp only [hfp] at h
      simp at h
    · simp only [hfp] at h ⊢
      by_cases h1 : (!probeDurationOk probe.duration) = true
      · rw [if_pos h1] at h
        simp at h
      · rw [if_neg h1]
        have h1' : probeDurationOk probe.duration = true := by
          revert h1
          cases probeDurationOk probe.duration <;> simp
        unfold probeDurationOk at h1'
        rcases hd : probe.duration with _ | q <;> rw [hd] at h1'
        · simp at h1'
        simp only [decide_eq_true_eq] at h1'
        exact ⟨q, rfl, h1'⟩
  · intro h
    unfold extract_audio_metadata at h ⊢
    rcases hfp : ae.ffprobe with _ | probe
    · simp only [hfp]
    · simp only [hfp] at h ⊢
      by_cases h1 : (!probeDurationOk probe.duration) = true
      · rw [if_pos h1]
      · rw [if_neg h1] at h
        simp at h
  · unfold extract_metadata
    split_ifs
    · exact Or.inl rfl
    · exact Or.inr (Or.inl rfl)
    · exact Or.inr (Or.inr (Or.inl rfl))
    · exact Or.inr (Or.inr (Or.inr rfl))

theorem classifier_invariant_witness :
    (∃ info, (extract_image_metadata ieGood "image/png").1.image = some info ∧
      0 < info.width ∧ 0 < info.height) ∧
    extract_image_metadata ieBad "image/png" = (MetaDict.empty, true) ∧
    (∃ v q, (extract_video_metadata veGood).1.video = some v ∧
      (extract_video_metadata veGood).1.duration = some q ∧ 0 < q ∧
      (∃ w, v.width = some w ∧ 0 < w) ∧ (∃ h, v.height = some h ∧ 0 < h) ∧
      (∃ fr, v.frame_rate = some fr ∧ 0 < fr)) ∧
    (∃ q, (extract_audio_metadata aeGood).1.duration = some q ∧ 0 < q) := by
  refine ⟨⟨{ width := 4, height := 3, thumbhash := [1], animated := false }, rfl,
      (classifier_invariant ieGood veGood aeGood
        { image := ieGood, video := veGood, audio := aeGood } "image/png").1
        (by decide) _ rfl⟩,
    (classifier_invariant ieBad veGood aeGood
        { image := ieBad, video := veGood, audio := aeGood } "image/png").2.2.2.1
        { width := 0, height := 3 } rfl (Or.inl (by decide)),
    (classifier_invariant ieGood veGood aeGood
        { image := ieGood, video := veGood, audio := aeGood } "image/png").2.2.2.2.1
        (by decide),
    (classifier_invariant ieGood veGood aeGood
        { image := ieGood, video := veGood, audio := aeGood } "image/png").2.2.2.2.2.2.2.1
        (by decide)⟩

theorem getD_pred {α : Type} (P : α → Prop) (ch : List α) (i : Nat) (d : α)
    (hP : ∀ e ∈ ch, P e) (hd : P d) : P (ch.getD i d) := by
  rw [List.getD_eq_getElem?_getD]
  cases hel : ch[i]? with
  | none => exact hd
  | some e => exact hP e (List.getElem?_mem hel)

theorem foldl_inv {α β : Type} (l : List α) (f : β → α → β) (P : β → Prop)
    (init : β) (hinit : P init)
    (hstep : ∀ st a, a ∈ l → P st → P (f st a)) :
    P (l.foldl f init) := by
  induction l generalizing init with
  | nil => exact hinit
  | cons a t ih =>
    exact ih (f init a) (hstep init a (by simp) hinit)
      (fun st b hb hst => hstep st b (by simp [hb]) hst)

theorem foldl_add_abs_le {β : Type} (l : List β) (g : β → ℚ) (C : ℚ)
    (hg : ∀ a ∈ l, |g a| ≤ C) (acc : ℚ) :
    |l.foldl (fun s a => s + g a) acc| ≤ |acc| + l.length * C := by
  induction l generalizing acc with
  | nil => simp
  | cons a t ih =>
    have h1 := ih (fun b hb => hg b (by simp [hb])) (acc + g a)
    have h2 : |acc + g a| ≤ |acc| + C :=
      le_trans (abs_add acc (g a)) (by
        have := hg a (by simp)
        linarith)
    calc |List.foldl (fun s b => s + g b) (acc + g a) t|
        ≤ |acc + g a| + t.length * C := h1
      _ ≤ |acc| + C + t.length * C := by linarith
      _ = |acc| + (a :: t).length * C := by
          simp only [List.length_cons]
          push_cast
          ring

theorem foldl_add_bounds {β : Type} (l : List β) (g : β → ℚ) (hi : ℚ)
    (hg : ∀ a ∈ l, 0 ≤ g a ∧ g a ≤ hi) (acc : ℚ) :
    acc ≤ l.foldl (fun s a => s + g a) acc ∧
      l.foldl (fun s a => s + g a) acc ≤ acc + l.length * hi := by
  induction l generalizing acc with
  | nil => simp
  | cons a t ih =>
    have h1 := ih (fun b hb => hg b (by simp [hb])) (acc + g a)
    have h2 := hg a (by simp)
    constructor
    · calc acc ≤ acc + g a := by linarith
        _ ≤ _ := h1.1
    · calc List.foldl (fun s b => s + g b) (acc + g a) t
          ≤ (acc + g a) + t.length * hi := h1.2
        _ ≤ (acc + hi) + t.length * hi := by linarith
        _ = acc + (a :: t).length * hi := by
            simp only [List.length_cons]
            push_cast
            ring

theorem foldl_nested_abs_le {α β : Type} (lo : List α) (li : List β)
    (g : α → β → ℚ) (C : ℚ)
    (hg : ∀ a ∈ lo, ∀ b ∈ li, |g a b| ≤ C) (acc : ℚ) :
    |lo.foldl (fun s a => li.foldl (fun s2 b => s2 + g a b) s) acc| ≤
      |acc| + lo.length * (li.length * C) := by
  induction lo generalizing acc with
  | nil => simp
  | cons a t ih =>
    have hin := foldl_add_abs_le li (g a) C (hg a (by simp)) acc
    have hrec := ih (fun x hx b hb => hg x (by simp [hx]) b hb)
      (li.foldl (fun s2 b => s2 + g a b) acc)
    calc |List.foldl (fun s x => li.foldl (fun s2 b => s2 + g x b) s)
          (li.foldl (fun s2 b => s2 + g a b) acc) t|
        ≤ |li.foldl (fun s2 b => s2 + g a b) acc| +
            t.length * (li.length * C) := hrec
      _ ≤ (|acc| + li.length * C) + t.length * (li.length * C) := by linarith
      _ = |acc| + (a :: t).length * (li.length * C) := by
          simp only [List.length_cons]
          push_cast
          ring

theorem foldl_nested_bounds {α β : Type} (lo : List α) (li : List β)
    (g : α → β → ℚ) (C : ℚ)
    (hg : ∀ a ∈ lo, ∀ b ∈ li, 0 ≤ g a b ∧ g a b ≤ C) (acc : ℚ) :
    acc ≤ lo.foldl (fun s a => li.foldl (fun s2 b => s2 + g a b) s) acc ∧
      lo.foldl (fun s a => li.foldl (fun s2 b => s2 + g a b) s) acc ≤
        acc + lo.length * (li.length * C) := by
  induction lo generalizing acc with
  | nil => simp
  | cons a t ih =>
    have hin := foldl_add_bounds li (g a) C (hg a (by simp)) acc
    have hrec := ih (fun x hx b hb => hg x (by simp [hx]) b hb)
      (li.foldl (fun s2 b => s2 + g a b) acc)
    constructor
    · exact le_trans hin.1 hrec.1
    · calc List.foldl (fun s x => li.foldl (fun s2 b => s2 + g x b) s)
            (li.foldl (fun s2 b => s2 + g a b) acc) t
          ≤ li.foldl (fun s2 b => s2 + g a b) acc +
              t.length * (li.length * C) := hrec.2
        _ ≤ (acc + li.length * C) + t.length * (li.length * C) := by linarith
        _ = acc + (a :: t).length * (li.length * C) := by
            simp only [List.length_cons]
            push_cast
            ring

theorem pythonRound_mem (x : ℚ) :
    pythonRound x = Int.floor x ∨ pythonRound x = Int.floor x + 1 := by
  unfold pythonRound
  try dsimp only
  split_ifs <;> simp

theorem pythonRound_bounds (a b : ℤ) (x : ℚ) (ha : (a : ℚ) ≤ x)
    (hb : x ≤ (b : ℚ)) : a ≤ pythonRound x ∧ pythonRound x ≤ b := by
  have hfl : a ≤ Int.floor x := Int.le_floor.mpr ha
  have hfu : Int.floor x ≤ b := by
    have := Int.floor_le_floor hb
    simpa using this
  constructor
  · rcases pythonRound_mem x with h | h <;> rw [h] <;> omega
  · by_cases heq : Int.floor x = b
    · have hr : x - Int.floor x ≤ 0 := by
        rw [heq]
        linarith
      unfold pythonRound
      try dsimp only
      rw [if_pos (by linarith)]
      omega
    · rcases pythonRound_mem x with h | h <;> rw [h] <;> omega

theorem rgba_getD_le (rgba : List Nat) (hbytes : ∀ b ∈ rgba, b ≤ 255)
    (j : Nat) : rgba.getD j 0 ≤ 255 :=
  getD_pred (fun b => b ≤ 255) rgba j 0 hbytes (by omega)

theorem rgba_getD_cast_bounds (rgba : List Nat)
    (hbytes : ∀ b ∈ rgba, b ≤ 255) (j : Nat) :
    (0 : ℚ) ≤ (rgba.getD j 0 : ℚ) ∧ (rgba.getD j 0 : ℚ) ≤ 255 := by
  constructor
  · positivity
  · exact_mod_cast rgba_getD_le rgba hbytes j

theorem thumbPixel_fullAlpha (w h : Nat) (rgba : List Nat)
    (halpha : ∀ i, i < w * h → rgba.getD (i * 4 + 3) 0 = 255)
    (i : Nat) (hi : i < w * h) :
    thumbPixel w h rgba i =
      ((rgba.getD (i * 4) 0 : ℚ) / 255, (rgba.getD (i * 4 + 1) 0 : ℚ) / 255,
       (rgba.getD (i * 4 + 2) 0 : ℚ) / 255, 1) := by
  unfold thumbPixel
  try dsimp only
  rw [halpha i hi]
  norm_num
  exact ⟨by ring, by ring, by ring⟩

theorem thumbChanL_bounds (w h : Nat) (rgba : List Nat)
    (hbytes : ∀ b ∈ rgba, b ≤ 255)
    (halpha : ∀ i, i < w * h → rgba.getD (i * 4 + 3) 0 = 255) :
    ∀ e ∈ thumbChanL w h rgba, 0 ≤ e ∧ e ≤ 1 := by
  intro e he
  unfold thumbChanL at he
  obtain ⟨i, hir, heq⟩ := List.mem_map.mp he
  have hi : i < w * h := List.mem_range.mp hir
  rw [thumbPixel_fullAlpha w h rgba halpha i hi] at heq
  obtain ⟨hr0, hr1⟩ := rgba_getD_cast_bounds rgba hbytes (i * 4)
  obtain ⟨hg0, hg1⟩ := rgba_getD_cast_bounds rgba hbytes (i * 4 + 1)
  obtain ⟨hb0, hb1⟩ := rgba_getD_cast_bounds rgba hbytes (i * 4 + 2)
  subst heq
  constructor
  · positivity
  · try dsimp only
    rw [div_le_one (by norm_num)]
    have h1 : (rgba.getD (i * 4) 0 : ℚ) / 255 ≤ 1 := by
      rw [div_le_one (by norm_num)]
      linarith
    have h2 : (rgba.getD (i * 4 + 1) 0 : ℚ) / 255 ≤ 1 := by
      rw [div_le_one (by norm_num)]
      linarith
    have h3 : (rgba.getD (i * 4 + 2) 0 : ℚ) / 255 ≤ 1 := by
      rw [div_le_one (by norm_num)]
      linarith
    linarith

theorem thumbChanP_bounds (w h : Nat) (rgba : List Nat)
    (hbytes : ∀ b ∈ rgba, b ≤ 255)
    (halpha : ∀ i, i < w * h → rgba.getD (i * 4 + 3) 0 = 255) :
    ∀ e ∈ thumbChanP w h rgba, |e| ≤ 1 := by
  intro e he
  unfold thumbChanP at he
  obtain ⟨i, hir, heq⟩ := List.mem_map.mp he
  have hi : i < w * h := List.mem_range.mp hir
  rw [thumbPixel_fullAlpha w h rgba halpha i hi] at heq
  obtain ⟨hr0, hr1⟩ := rgba_getD_cast_bounds rgba hbytes (i * 4)
  obtain ⟨hg0, hg1⟩ := rgba_getD_cast_bounds rgba hbytes (i * 4 + 1)
  obtain ⟨hb0, hb1⟩ := rgba_getD_cast_bounds rgba hbytes (i * 4 + 2)
  subst heq
  try dsimp only
  rw [abs_le]
  constructor <;> [skip; skip] <;>
    [nlinarith [hr0, hr1, hg0, hg1, hb0, hb1];
     nlinarith [hr0, hr1, hg0, hg1, hb0, hb1]]

theorem thumbChanQ_bounds (w h : Nat) (rgba : List Nat)
    (hbytes : ∀ b ∈ rgba, b ≤ 255)
    (halpha : ∀ i, i < w * h → rgba.getD (i * 4 + 3) 0 = 255) :
    ∀ e ∈ thumbChanQ w h rgba, |e| ≤ 1 := by
  intro e he
  unfold thumbChanQ at he
  obtain ⟨i, hir, heq⟩ := List.mem_map.mp he
  have hi : i < w * h := List.mem_range.mp hir
  rw [thumbPixel_fullAlpha w h rgba halpha i hi] at heq
  obtain ⟨hr0, hr1⟩ := rgba_getD_cast_bounds rgba hbytes (i * 4)
  obtain ⟨hg0, hg1⟩ := rgba_getD_cast_bounds rgba hbytes (i * 4 + 1)
  subst heq
  try dsimp only
  rw [abs_le]
  constructor <;> nlinarith [hr0, hr1, hg0, hg1]

theorem thumbCoeff_abs_le (cosf : ℚ → ℚ) (w h : Nat) (ch : List ℚ)
    (cx cy : Nat) (hw : 0 < w) (hh : 0 < h)
    (hch : ∀ e ∈ ch, |e| ≤ 1) (hcos : ∀ r, |cosf r| ≤ 1) :
    |thumbCoeff cosf w h ch cx cy| ≤ 1 := by
  unfold thumbCoeff
  rw [abs_div]
  have hwh : (0 : ℚ) < (w : ℚ) * (h : ℚ) := by positivity
  rw [div_le_one (by rw [abs_of_pos hwh]; exact hwh)]
  have hbound := foldl_nested_abs_le (List.range h) (List.range w)
    (fun y x => ch.getD (x + y * w) 0 *
      cosf ((cx : ℚ) * ((x : ℚ) + 1 / 2) / (w : ℚ)) *
      cosf ((cy : ℚ) * ((y : ℚ) + 1 / 2) / (h : ℚ))) 1
    (by
      intro y hy x hx
      rw [abs_mul, abs_mul]
      have h1 : |ch.getD (x + y * w) 0| ≤ 1 :=
        getD_pred (fun e => |e| ≤ 1) ch (x + y * w) 0 hch (by norm_num)
      have h2 := hcos ((cx : ℚ) * ((x : ℚ) + 1 / 2) / (w : ℚ))
      have h3 := hcos ((cy : ℚ) * ((y : ℚ) + 1 / 2) / (h : ℚ))
      have ha1 : (0:ℚ) ≤ |ch.getD (x + y * w) 0| := abs_nonneg _
      have ha2 : (0:ℚ) ≤ |cosf ((cx : ℚ) * ((x : ℚ) + 1 / 2) / (w : ℚ))| :=
        abs_nonneg _
      have ha3 : (0:ℚ) ≤ |cosf ((cy : ℚ) * ((y : ℚ) + 1 / 2) / (h : ℚ))| :=
        abs_nonneg _
      have hab : |ch.getD (x + y * w) 0| *
          |cosf ((cx : ℚ) * ((x : ℚ) + 1 / 2) / (w : ℚ))| ≤ 1 := by nlinarith
      have hab0 : (0:ℚ) ≤ |ch.getD (x + y * w) 0| *
          |cosf ((cx : ℚ) * ((x : ℚ) + 1 / 2) / (w : ℚ))| := by positivity
      nlinarith) 0
  simp only [List.length_range, abs_zero, zero_add, mul_one] at hbound
  calc |_| ≤ (h : ℚ) * (w : ℚ) := hbound
    _ = |(w : ℚ) * (h : ℚ)| := by rw [abs_of_pos hwh]; ring

theorem thumbCoeff_dc_bounds (cosf : ℚ → ℚ) (w h : Nat) (ch : List ℚ)
    (hw : 0 < w) (hh : 0 < h)
    (hch : ∀ e ∈ ch, 0 ≤ e ∧ e ≤ 1) (hcos0 : cosf 0 = 1) :
    0 ≤ thumbCoeff cosf w h ch 0 0 ∧ thumbCoeff cosf w h ch 0 0 ≤ 1 := by
  unfold thumbCoeff
  have hwh : (0 : ℚ) < (w : ℚ) * (h : ℚ) := by positivity
  simp only [Nat.cast_zero, zero_mul, zero_div, hcos0, mul_one]
  have hbound := foldl_nested_bounds (List.range h) (List.range w)
    (fun y x => ch.getD (x + y * w) 0) 1
    (by
      intro y hy x hx
      exact getD_pred (fun e => 0 ≤ e ∧ e ≤ 1) ch (x + y * w) 0 hch
        (by norm_num)) 0
  simp only [List.length_range, zero_add, mul_one] at hbound
  constructor
  · exact div_nonneg hbound.1 (le_of_lt hwh)
  · rw [div_le_one hwh]
    calc _ ≤ (h : ℚ) * (w : ℚ) := hbound.2
      _ = (w : ℚ) * (h : ℚ) := by ring

theorem encode_channel_scale_bounds (cosf : ℚ → ℚ) (w h : Nat) (ch : List ℚ)
    (nx ny : Nat) (hw : 0 < w) (hh : 0 < h)
    (hch : ∀ e ∈ ch, |e| ≤ 1) (hcos : ∀ r, |cosf r| ≤ 1) :
    0 ≤ (encode_channel cosf w h ch nx ny).scale ∧
      (encode_channel cosf w h ch nx ny).scale ≤ 1 := by
  unfold encode_channel
  try dsimp only
  have hinv := foldl_inv (thumbPairs nx ny) (thumbChanStep cosf w h ch)
    (fun st => 0 ≤ st.2.2 ∧ st.2.2 ≤ 1) (0, [], 0) (by norm_num)
    (by
      intro st p hp hst
      unfold thumbChanStep
      try dsimp only
      split_ifs with hc
      · exact ⟨le_trans hst.1 (le_max_left _ _),
          max_le hst.2 (thumbCoeff_abs_le cosf w h ch p.1 p.2 hw hh hch hcos)⟩
      · exact hst)
  split_ifs <;> exact hinv

theorem encode_channel_dc_luma_bounds (cosf : ℚ → ℚ) (w h : Nat) (ch : List ℚ)
    (nx ny : Nat) (hw : 0 < w) (hh : 0 < h)
    (hch : ∀ e ∈ ch, 0 ≤ e ∧ e ≤ 1) (hcos0 : cosf 0 = 1) :
    0 ≤ (encode_channel cosf w h ch nx ny).dc ∧
      (encode_channel cosf w h ch nx ny).dc ≤ 1 := by
  unfold encode_channel
  try dsimp only
  have hinv := foldl_inv (thumbPairs nx ny) (thumbChanStep cosf w h ch)
    (fun st => 0 ≤ st.1 ∧ st.1 ≤ 1) (0, [], 0) (by norm_num)
    (by
      intro st p hp hst
      unfold thumbChanStep
      try dsimp only
      split_ifs with hc
      · exact hst
      · push_neg at hc
        have hp1 : p.1 = 0 := by omega
        have hp2 : p.2 = 0 := by omega
        rw [hp1, hp2]
        exact thumbCoeff_dc_bounds cosf w h ch hw hh hch hcos0)
  split_ifs <;> exact hinv

theorem encode_channel_dc_abs_le (cosf : ℚ → ℚ) (w h : Nat) (ch : List ℚ)
    (nx ny : Nat) (hw : 0 < w) (hh : 0 < h)
    (hch : ∀ e ∈ ch, |e| ≤ 1) (hcos : ∀ r, |cosf r| ≤ 1) :
    |(encode_channel cosf w h ch nx ny).dc| ≤ 1 := by
  unfold encode_channel
  try dsimp only
  have hinv := foldl_inv (thumbPairs nx ny) (thumbChanStep cosf w h ch)
    (fun st => |st.1| ≤ 1) (0, [], 0) (by norm_num)
    (by
      intro st p hp hst
      unfold thumbChanStep
      try dsimp only
      split_ifs with hc
      · exact hst
      · exact thumbCoeff_abs_le cosf w h ch p.1 p.2 hw hh hch hcos)
  split_ifs <;> exact hinv

theorem encode_fold_ac_length (cosf : ℚ → ℚ) (w h : Nat) (ch : List ℚ)
    (ps : List (Nat × Nat)) :
    ∀ st, ((ps.foldl (thumbChanStep cosf w h ch) st).2.1).length =
      st.2.1.length + ps.countP (fun p => decide (0 < p.1 ∨ 0 < p.2)) := by
  induction ps with
  | nil => simp
  | cons p t ih =>
    intro st
    rw [List.foldl_cons, ih, List.countP_cons]
    unfold thumbChanStep
    try dsimp only
    split_ifs with hc hc2 <;> simp_all <;> omega

theorem encode_channel_ac_length (cosf : ℚ → ℚ) (w h : Nat) (ch : List ℚ)
    (nx ny : Nat) :
    (encode_channel cosf w h ch nx ny).ac.length =
      (thumbPairs nx ny).countP (fun p => decide (0 < p.1 ∨ 0 < p.2)) := by
  unfold encode_channel
  try dsimp only
  split_ifs
  · simp only [List.length_map]
    rw [encode_fold_ac_length]
    simp
  · rw [encode_fold_ac_length]
    simp

theorem cxWhile_ge (nx ny cy : Nat) :
    ∀ (k c : Nat), nx - c ≤ k → ∀ x ∈ cxWhile nx ny cy c, c ≤ x := by
  intro k
  induction k with
  | zero =>
    intro c hc x hx
    rw [cxWhile] at hx
    rw [dif_neg ?_] at hx
    · simp at hx
    · intro hlt
      have h1 : nx * (ny - cy) ≤ nx * ny := Nat.mul_le_mul_left nx (Nat.sub_le _ _)
      have h2 : nx * ny ≤ c * ny := Nat.mul_le_mul_right ny (by omega)
      omega
  | succ k ih =>
    intro c hc x hx
    rw [cxWhile] at hx
    by_cases hcond : c * ny < nx * (ny - cy)
    · rw [dif_pos hcond] at hx
      rcases List.mem_cons.mp hx with rfl | hx2
      · exact le_refl _
      · have hcnx : c < nx := by
          by_contra hge
          push_neg at hge
          have h1 : nx * (ny - cy) ≤ nx * ny := Nat.mul_le_mul_left nx (Nat.sub_le _ _)
          have h2 : nx * ny ≤ c * ny := Nat.mul_le_mul_right ny hge
          omega
        have := ih (c + 1) (by omega) x hx2
        omega
    · rw [dif_neg hcond] at hx
      simp at hx

theorem thumbPairs_head (nx ny : Nat) (hnx : 0 < nx) (hny : 0 < ny) :
    ∃ rest, thumbPairs nx ny = (0, 0) :: rest ∧
      ∀ q ∈ rest, (0 < q.1 ∨ 0 < q.2) := by
  obtain ⟨m, rfl⟩ : ∃ m, ny = m + 1 := ⟨ny - 1, by omega⟩
  unfold thumbPairs
  rw [List.range_succ_eq_map]
  rw [List.flatMap_cons]
  rw [cxWhile]
  rw [dif_pos (by
    simp only [Nat.zero_mul, Nat.sub_zero]
    exact Nat.mul_pos hnx (by omega))]
  rw [List.map_cons, List.cons_append]
  refine ⟨_, rfl, ?_⟩
  intro q hq
  rcases List.mem_append.mp hq with hq1 | hq2
  · obtain ⟨cx, hcx, rfl⟩ := List.mem_map.mp hq1
    left
    have := cxWhile_ge nx (m + 1) 0 nx 1 (by omega) cx hcx
    omega
  · obtain ⟨cy, hcy, hq3⟩ := List.mem_flatMap.mp hq2
    obtain ⟨cx, hcx, rfl⟩ := List.mem_map.mp hq3
    obtain ⟨z, hz, rfl⟩ := List.mem_map.mp hcy
    right
    omega

theorem thumbPairs_countP (nx ny : Nat) (hnx : 0 < nx) (hny : 0 < ny) :
    (thumbPairs nx ny).countP (fun p => decide (0 < p.1 ∨ 0 < p.2)) =
      (thumbPairs nx ny).length - 1 := by
  obtain ⟨rest, heq, hall⟩ := thumbPairs_head nx ny hnx hny
  rw [heq]
  rw [List.countP_cons_of_neg (fun p => decide (0 < p.1 ∨ 0 < p.2)) rest (by simp)]
  rw [List.countP_eq_length.mpr (by
    intro q hq
    simpa using hall q hq)]
  simp

theorem encode_channel_ac_count (cosf : ℚ → ℚ) (w h : Nat) (ch : List ℚ)
    (nx ny : Nat) (hnx : 0 < nx) (hny : 0 < ny) :
    (encode_channel cosf w h ch nx ny).ac.length = thumbAcCount nx ny := by
  rw [encode_channel_ac_length, thumbPairs_countP nx ny hnx hny, thumbAcCount]

theorem getD_take_lt (l : List ℤ) (n i : Nat) (d : ℤ) (h : i < n) :
    (l.take n).getD i d = l.getD i d := by
  rw [List.getD_eq_getElem?_getD, List.getD_eq_getElem?_getD]
  congr 1
  exact List.getElem?_take_of_lt h

theorem packCoeffs_getD2 (coeffs : List ℚ) (l : List ℤ) (b : Bool)
    (hlen : 5 ≤ l.length) :
    (packCoeffs (l, b) coeffs).1.getD 2 0 = l.getD 2 0 ∧
      5 ≤ (packCoeffs (l, b) coeffs).1.length := by
  unfold packCoeffs
  refine foldl_inv coeffs _
    (fun st => st.1.getD 2 0 = l.getD 2 0 ∧ 5 ≤ st.1.length)
    (l, b) ⟨rfl, hlen⟩ ?_
  intro st a ha hst
  try dsimp only
  split_ifs with hb2
  · have h5 := hst.2
    constructor
    · rw [← hst.1]
      rw [List.getD_append _ _ _ _ (by
        rw [List.length_dropLast]
        omega)]
      rw [List.dropLast_eq_take]
      exact getD_take_lt _ _ _ _ (by omega)
    · rw [List.length_append, List.length_dropLast]
      simp only [List.length_cons, List.length_nil]
      omega
  · have h5 := hst.2
    constructor
    · rw [← hst.1]
      exact List.getD_append _ _ _ _ (by omega)
    · rw [List.length_append]
      simp only [List.length_cons, List.length_nil]
      omega

theorem packCoeffs_stats :
    ∀ (coeffs : List ℚ) (l : List ℤ) (b : Bool), (b = true → 1 ≤ l.length) →
      (2 * (packCoeffs (l, b) coeffs).1.length -
          (if (packCoeffs (l, b) coeffs).2 then 1 else 0) =
        2 * l.length - (if b then 1 else 0) + coeffs.length) ∧
      ((packCoeffs (l, b) coeffs).2 = true →
        1 ≤ (packCoeffs (l, b) coeffs).1.length) := by
  intro coeffs
  induction coeffs with
  | nil =>
    intro l b hb
    constructor
    · rfl
    · intro h2
      cases b with
      | false => simp [packCoeffs] at h2
      | true => simpa [packCoeffs] using hb rfl
  | cons f fs ih =>
    intro l b hb
    cases b with
    | false =>
      have hcons : packCoeffs (l, false) (f :: fs) =
          packCoeffs (l ++ [pythonRound (15 * f)], true) fs := rfl
      rw [hcons]
      have ihh := ih (l ++ [pythonRound (15 * f)]) true (by simp)
      refine ⟨?_, ihh.2⟩
      rw [ihh.1]
      simp only [List.length_append, List.length_cons, List.length_nil]
      norm_num
      omega
    | true =>
      have h1 := hb rfl
      have hcons : packCoeffs (l, true) (f :: fs) =
          packCoeffs (l.dropLast ++
            [Int.lor (l.getLastD 0) (pythonRound (15 * f) * 2 ^ 4)],
            false) fs := rfl
      rw [hcons]
      have ihh := ih (l.dropLast ++
        [Int.lor (l.getLastD 0) (pythonRound (15 * f) * 2 ^ 4)]) false
        (by simp)
      refine ⟨?_, ihh.2⟩
      rw [ihh.1]
      simp only [List.length_append, List.length_dropLast, List.length_cons,
        List.length_nil]
      norm_num
      omega

theorem packCoeffs_append (st : List ℤ × Bool) (xs ys : List ℚ) :
    packCoeffs (packCoeffs st xs) ys = packCoeffs st (xs ++ ys) := by
  unfold packCoeffs
  exact (List.foldl_append _ _ _ _).symm

theorem packCoeffs_false_length (coeffs : List ℚ) (l : List ℤ) :
    (packCoeffs (l, false) coeffs).1.length =
      l.length + (coeffs.length + 1) / 2 := by
  have h := packCoeffs_stats coeffs l false (by simp)
  have h1 := h.1
  cases hb2 : (packCoeffs (l, false) coeffs).2 with
  | false =>
    rw [hb2] at h1
    norm_num at h1
    omega
  | true =>
    have h2 := h.2 hb2
    rw [hb2] at h1
    norm_num at h1
    omega

theorem int_lor_nonneg_lt (a b : ℤ) (k : Nat) (ha : 0 ≤ a) (hb : 0 ≤ b)
    (ha2 : a < 2 ^ k) (hb2 : b < 2 ^ k) :
    0 ≤ Int.lor a b ∧ Int.lor a b < 2 ^ k := by
  lift a to ℕ using ha with m
  lift b to ℕ using hb with n
  have hl : Int.lor (m : ℤ) (n : ℤ) = ((m ||| n : ℕ) : ℤ) := rfl
  rw [hl]
  constructor
  · positivity
  · have h1 : m < 2 ^ k := by exact_mod_cast ha2
    have h2 : n < 2 ^ k := by exact_mod_cast hb2
    exact_mod_cast Nat.or_lt_two_pow h1 h2

theorem int_lor_zero_nonneg (a : ℤ) (ha : 0 ≤ a) : Int.lor a 0 = a := by
  lift a to ℕ using ha with m
  have hl : Int.lor (m : ℤ) ((0 : ℕ) : ℤ) = ((m ||| 0 : ℕ) : ℤ) := rfl
  simpa using hl

theorem thumbHeader24_fullAlpha_bounds (lDc pDc qDc lScale : ℚ)
    (hl0 : 0 ≤ lDc) (hl1 : lDc ≤ 1) (hp : |pDc| ≤ 1) (hq : |qDc| ≤ 1)
    (hs0 : 0 ≤ lScale) (hs1 : lScale ≤ 1) :
    0 ≤ thumbHeader24 lDc pDc qDc lScale false ∧
      thumbHeader24 lDc pDc qDc lScale false < 2 ^ 23 := by
  unfold thumbHeader24
  rw [abs_le] at hp hq
  have h1 := pythonRound_bounds 0 63 (63 * lDc)
    (by push_cast; nlinarith) (by push_cast; nlinarith)
  have h2 := pythonRound_bounds 0 63 (63 / 2 + 63 / 2 * pDc)
    (by push_cast; nlinarith [hp.1]) (by push_cast; nlinarith [hp.2])
  have h3 := pythonRound_bounds 0 63 (63 / 2 + 63 / 2 * qDc)
    (by push_cast; nlinarith [hq.1]) (by push_cast; nlinarith [hq.2])
  have h4 := pythonRound_bounds 0 31 (31 * lScale)
    (by push_cast; nlinarith) (by push_cast; nlinarith)
  have hL1 := int_lor_nonneg_lt (pythonRound (63 * lDc))
    (pythonRound (63 / 2 + 63 / 2 * pDc) * 2 ^ 6) 23
    (by omega) (by omega) (by omega) (by omega)
  have hL2 := int_lor_nonneg_lt
    (Int.lor (pythonRound (63 * lDc))
      (pythonRound (63 / 2 + 63 / 2 * pDc) * 2 ^ 6))
    (pythonRound (63 / 2 + 63 / 2 * qDc) * 2 ^ 12) 23
    hL1.1 (by omega) hL1.2 (by omega)
  have hL3 := int_lor_nonneg_lt
    (Int.lor (Int.lor (pythonRound (63 * lDc))
      (pythonRound (63 / 2 + 63 / 2 * pDc) * 2 ^ 6))
      (pythonRound (63 / 2 + 63 / 2 * qDc) * 2 ^ 12))
    (pythonRound (31 * lScale) * 2 ^ 18) 23
    hL2.1 (by omega) hL2.2 (by omega)
  rw [if_neg (by simp)]
  rw [zero_mul, int_lor_zero_nonneg _ hL3.1]
  exact hL3

theorem thumbAvg_a_fullAlpha (rgba : List Nat) :
    ∀ n, (∀ i, i < n → rgba.getD (i * 4 + 3) 0 = 255) →
      ∀ acc : RGBAavg,
        ((List.range n).foldl (thumbAvgStep rgba) acc).a = acc.a + n := by
  intro n
  induction n with
  | zero =>
    intro _ acc
    simp
  | succ n ih =>
    intro hal acc
    rw [List.range_succ, List.foldl_append, List.foldl_cons, List.foldl_nil]
    have hstep : ∀ (acc2 : RGBAavg) (i : Nat), (thumbAvgStep rgba acc2 i).a =
        acc2.a + (rgba.getD (i * 4 + 3) 0 : ℚ) / 255 := fun _ _ => rfl
    rw [hstep]
    rw [ih (fun i hi => hal i (by omega)) acc]
    rw [hal n (by omega)]
    push_cast
    ring

theorem thumbHasAlpha_fullAlpha (w h : Nat) (rgba : List Nat)
    (halpha : ∀ i, i < w * h → rgba.getD (i * 4 + 3) 0 = 255) :
    thumbHasAlpha w h rgba = false := by
  unfold thumbHasAlpha thumbAvg
  rw [thumbAvg_a_fullAlpha rgba (w * h) halpha ⟨0, 0, 0, 0⟩]
  simp

/-- C9 (amended): the original claim omits the size guard — with `w * h = 0`
the Python encoder raises `ZeroDivisionError` even though such an input
satisfies every stated hypothesis (both dimensions at most 100, a buffer of
length `w*h*4 = 0`, vacuously all-opaque). -/
theorem rgba_to_thumb_hash_zero_counterexample :
    rgba_to_thumb_hash (fun _ => 1) 0 0 [] = .error "ZeroDivisionError" ∧
    (0 ≤ 100 ∧ ([] : List Nat).length = 0 * 0 * 4 ∧
      ∀ i, i < 0 * 0 → ([] : List Nat).getD (i * 4 + 3) 0 = 255) := by
  refine ⟨rfl, by norm_num, by norm_num, ?_⟩
  intro i hi
  omega

/-- C9 (amended): for positive dimensions at most 100 and a fully opaque
RGBA buffer, the encoder succeeds, reports `has_alpha = false`, appends no
alpha block, keeps the `has_alpha` bit of the third header byte clear, and
produces exactly 5 header bytes plus the luma/P/Q AC coefficients packed
two nibbles to a byte. -/
theorem rgba_to_thumb_hash_fullAlpha (cosf : ℚ → ℚ) (w h : Nat) (rgba : List Nat)
    (hw : 0 < w) (hh : 0 < h) (hw100 : w ≤ 100) (hh100 : h ≤ 100)
    (hlen : rgba.length = w * h * 4)
    (hbytes : ∀ b ∈ rgba, b ≤ 255)
    (halpha : ∀ i, i < w * h → rgba.getD (i * 4 + 3) 0 = 255)
    (hcos : ∀ r, |cosf r| ≤ 1) (hcos0 : cosf 0 = 1) :
    ∃ out, rgba_to_thumb_hash cosf w h rgba = .ok out ∧
      thumbHasAlpha w h rgba = false ∧
      out.length = 5 + (thumbAcTotalOpaque w h + 1) / 2 ∧
      0 ≤ out.getD 2 0 ∧ out.getD 2 0 < 128 := by
  have hA := thumbHasAlpha_fullAlpha w h rgba halpha
  have hchL := thumbChanL_bounds w h rgba hbytes halpha
  have hchLabs : ∀ e ∈ thumbChanL w h rgba, |e| ≤ 1 := by
    intro e he
    have h2 := hchL e he
    rw [abs_le]
    constructor <;> linarith [h2.1, h2.2]
  have hchP := thumbChanP_bounds w h rgba hbytes halpha
  have hchQ := thumbChanQ_bounds w h rgba hbytes halpha
  have hldc := encode_channel_dc_luma_bounds cosf w h (thumbChanL w h rgba)
    (max 3 (thumbLx w h false)) (max 3 (thumbLy w h false)) hw hh hchL hcos0
  have hlsc := encode_channel_scale_bounds cosf w h (thumbChanL w h rgba)
    (max 3 (thumbLx w h false)) (max 3 (thumbLy w h false)) hw hh hchLabs hcos
  have hpdc := encode_channel_dc_abs_le cosf w h (thumbChanP w h rgba) 3 3
    hw hh hchP hcos
  have hqdc := encode_channel_dc_abs_le cosf w h (thumbChanQ w h rgba) 3 3
    hw hh hchQ hcos
  have hhdr := thumbHeader24_fullAlpha_bounds _ _ _ _ hldc.1 hldc.2 hpdc hqdc
    hlsc.1 hlsc.2
  unfold rgba_to_thumb_hash
  rw [if_neg (by omega)]
  rw [if_neg (Nat.mul_ne_zero (by omega) (by omega))]
  try dsimp only
  rw [hA]
  simp only [Bool.false_eq_true, if_false]
  refine ⟨_, rfl, by trivial, ?_, ?_, ?_⟩
  · rw [packCoeffs_append, packCoeffs_append]
    rw [packCoeffs_false_length]
    simp only [List.length_append, List.length_cons, List.length_nil]
    rw [encode_channel_ac_count cosf w h (thumbChanL w h rgba) _ _
      (by omega) (by omega)]
    rw [encode_channel_ac_count cosf w h (thumbChanP w h rgba) 3 3
      (by omega) (by omega)]
    rw [encode_channel_ac_count cosf w h (thumbChanQ w h rgba) 3 3
      (by omega) (by omega)]
    unfold thumbAcTotalOpaque
    omega
  · rw [packCoeffs_append, packCoeffs_append]
    rw [(packCoeffs_getD2 _ _ _ (by norm_num)).1]
    have hg : ([Int.emod (thumbHeader24
        (encode_channel cosf w h (thumbChanL w h rgba)
          (max 3 (thumbLx w h false)) (max 3 (thumbLy w h false))).dc
        (encode_channel cosf w h (thumbChanP w h rgba) 3 3).dc
        (encode_channel cosf w h (thumbChanQ w h rgba) 3 3).dc
        (encode_channel cosf w h (thumbChanL w h rgba)
          (max 3 (thumbLx w h false)) (max 3 (thumbLy w h false))).scale
        false) 256,
      Int.emod (Int.fdiv (thumbHeader24
        (encode_channel cosf w h (thumbChanL w h rgba)
          (max 3 (thumbLx w h false)) (max 3 (thumbLy w h false))).dc
        (encode_channel cosf w h (thumbChanP w h rgba) 3 3).dc
        (encode_channel cosf w h (thumbChanQ w h rgba) 3 3).dc
        (encode_channel cosf w h (thumbChanL w h rgba)
          (max 3 (thumbLx w h false)) (max 3 (thumbLy w h false))).scale
        false) (2 ^ 8)) 256,
      Int.fdiv (thumbHeader24
        (encode_channel cosf w h (thumbChanL w h rgba)
          (max 3 (thumbLx w h false)) (max 3 (thumbLy w h false))).dc
        (encode_channel cosf w h (thumbChanP w h rgba) 3 3).dc
        (encode_channel cosf w h (thumbChanQ w h rgba) 3 3).dc
        (encode_channel cosf w h (thumbChanL w h rgba)
          (max 3 (thumbLx w h false)) (max 3 (thumbLy w h false))).scale
        false) (2 ^ 16), Int.emod (thumbHeader16 (thumbLx w h false)
        (thumbLy w h false)
        (encode_channel cosf w h (thumbChanP w h rgba) 3 3).scale
        (encode_channel cosf w h (thumbChanQ w h rgba) 3 3).scale
        (decide (w > h))) 256,
      Int.fdiv (thumbHeader16 (thumbLx w h false) (thumbLy w h false)
        (encode_channel cosf w h (thumbChanP w h rgba) 3 3).scale
        (encode_channel cosf w h (thumbChanQ w h rgba) 3 3).scale
        (decide (w > h))) (2 ^ 8)] : List ℤ).getD 2 0 =
      Int.fdiv (thumbHeader24
        (encode_channel cosf w h (thumbChanL w h rgba)
          (max 3 (thumbLx w h false)) (max 3 (thumbLy w h false))).dc
        (encode_channel cosf w h (thumbChanP w h rgba) 3 3).dc
        (encode_channel cosf w h (thumbChanQ w h rgba) 3 3).dc
        (encode_channel cosf w h (thumbChanL w h rgba)
          (max 3 (thumbLx w h false)) (max 3 (thumbLy w h false))).scale
        false) (2 ^ 16) := rfl
    rw [hg]
    rw [Int.fdiv_eq_ediv _ (by positivity)]
    have h1 := hhdr.1
    have h2 := hhdr.2
    omega
  · rw [packCoeffs_append, packCoeffs_append]
    rw [(packCoeffs_getD2 _ _ _ (by norm_num)).1]
    rw [show ∀ (a b c d e : ℤ), ([a, b, c, d, e] : List ℤ).getD 2 0 = c
      from fun _ _ _ _ _ => rfl]
    rw [Int.fdiv_eq_ediv _ (by positivity)]
    have h1 := hhdr.1
    have h2 := hhdr.2
    omega

theorem rgba_to_thumb_hash_fullAlpha_witness :
    ((0 : Nat) < 1 ∧ 1 ≤ 100 ∧ ([0, 0, 0, 255] : List Nat).length = 1 * 1 * 4) ∧
    (∃ out, rgba_to_thumb_hash (fun _ => 1) 1 1 [0, 0, 0, 255] = .ok out ∧
      thumbHasAlpha 1 1 [0, 0, 0, 255] = false ∧
      out.length = 5 + (thumbAcTotalOpaque 1 1 + 1) / 2 ∧
      0 ≤ out.getD 2 0 ∧ out.getD 2 0 < 128) := by
  refine ⟨⟨by norm_num, by norm_num, by norm_num⟩, ?_⟩
  refine rgba_to_thumb_hash_fullAlpha (fun _ => 1) 1 1 [0, 0, 0, 255]
    (by norm_num) (by norm_num) (by norm_num) (by norm_num) (by norm_num)
    (by decide) ?_ (by intro r; norm_num) rfl
  intro i hi
  have hi0 : i = 0 := by omega
  subst hi0
  rfl

end FileIndex
